import Mathlib

/-!
Verification development for the Mython interpreter
(`src/mython/runtime.cpp`, `src/mython/statement.cpp`, `src/mython/lexer.cpp`).

The evaluator and lexer are shallowly embedded: objects live in an explicit
heap addressed by natural numbers, `ObjectHolder` becomes `Option Addr`
(an empty holder is `none`), scopes (`Closure`) are association lists with
insert-or-assign semantics matching `std::unordered_map`, and effects on the
output stream are threaded explicitly.  Execution is indexed by fuel; the
C++ interpreter can recurse unboundedly, so every mutually recursive
evaluation function consumes one unit of fuel per call.
-/

namespace Mython

/-- Heap address.  `ObjectHolder::Get()` is modelled as the address a handle
refers to; pointer identity in the C++ source becomes address equality. -/
abbrev Addr := Nat

/-- An `ObjectHolder`: either empty (`ObjectHolder::None()`) or a reference
to a heap object.  Owning and non-owning (`Share`) handles refer to objects
the same way; lifetime is not modelled (no object is ever deallocated). -/
abbrev Handle := Option Addr

/-- `runtime::Closure`, a `std::unordered_map<std::string, ObjectHolder>`,
modelled as an association list.  It is also used for instance field maps. -/
abbrev Closure := List (String × Handle)

/-- Map lookup (`closure.count` / `closure.at`). -/
def cloGet : Closure → String → Option Handle
  | [], _ => none
  | (k, v) :: rest, n => if k = n then some v else cloGet rest n

/-- Insert-or-assign (`closure[k] = v`). -/
def cloSet : Closure → String → Handle → Closure
  | [], n, v => [(n, v)]
  | (k, w) :: rest, n, v =>
    if k = n then (n, v) :: rest else (k, w) :: cloSet rest n v

/-- `closure.count(k) != 0`. -/
def cloContains (c : Closure) (n : String) : Bool :=
  (cloGet c n).isSome

/-- `operator[]` on a field map: return the mapped handle, default-inserting
an empty handle when the key is absent (exactly `std::unordered_map`'s
`operator[]` with a default-constructed `ObjectHolder`). -/
def cloGetOrInsert : Closure → String → Handle × Closure
  | [], n => (none, [(n, none)])
  | (k, w) :: rest, n =>
    if k = n then (w, (k, w) :: rest)
    else
      let (h, r) := cloGetOrInsert rest n
      (h, (k, w) :: r)

mutual

/-- An AST statement (`ast::Statement` and its concrete subclasses from
`statement.cpp`).  `Comparison` stores which comparator helper it applies. -/
inductive Stmt where
  | assignment (var : String) (rv : Stmt)
  | variableValue (ids : List String)
  | printStmt (args : List Stmt)
  | methodCall (obj : Stmt) (m : String) (args : List Stmt)
  | stringify (arg : Stmt)
  | add (l r : Stmt)
  | sub (l r : Stmt)
  | mult (l r : Stmt)
  | div (l r : Stmt)
  | compound (ss : List Stmt)
  | ret (e : Stmt)
  | classDef (c : Cls)
  | fieldAssign (objIds : List String) (field : String) (rv : Stmt)
  | ifElse (cond : Stmt) (thenB : Stmt) (elseB : Option Stmt)
  | orStmt (l r : Stmt)
  | andStmt (l r : Stmt)
  | notStmt (e : Stmt)
  | comparison (cmp : Cmp) (l r : Stmt)
  | newInstance (c : Cls) (args : List Stmt)
  | methodBody (b : Stmt)

/-- `runtime::Class`: name, method vector, optional parent.  The C++ parent
is a pointer to an already-constructed class, hence structurally smaller. -/
inductive Cls where
  | mk (name : String) (methods : List Mthd) (parent : Option Cls)

/-- `runtime::Method`: name, formal parameters, body. -/
inductive Mthd where
  | mk (name : String) (formalParams : List String) (body : Stmt)

/-- The comparator passed to an `ast::Comparison` node (one of the helper
functions `Equal`, `Less`, `NotEqual`, `Greater`, `LessOrEqual`,
`GreaterOrEqual` from `runtime.cpp`). -/
inductive Cmp where
  | eq
  | notEq
  | less
  | greater
  | lessOrEq
  | greaterOrEq

end

def Mthd.name : Mthd → String
  | .mk n _ _ => n

def Mthd.formalParams : Mthd → List String
  | .mk _ ps _ => ps

def Mthd.body : Mthd → Stmt
  | .mk _ _ b => b

def Cls.name : Cls → String
  | .mk n _ _ => n

def Cls.methods : Cls → List Mthd
  | .mk _ ms _ => ms

def Cls.parent : Cls → Option Cls
  | .mk _ _ p => p

/-- The method found through `name_to_method_index_`.  The index is built by
a forward loop `name_to_method_index_[methods_[i].name] = i`, so on duplicate
names the last occurrence wins. -/
def findLocalMethod (ms : List Mthd) (n : String) : Option Mthd :=
  ms.foldl (fun acc m => if m.name = n then some m else acc) none

/-- `Class::GetMethod`: local index first, then the parent chain. -/
def Cls.getMethod : Cls → String → Option Mthd
  | .mk _ ms p, n =>
    match findLocalMethod ms n with
    | some m => some m
    | none =>
      match p with
      | some par => par.getMethod n
      | none => none

/-- `ClassInstance::HasMethod`: the method exists and its formal-parameter
count equals the requested argument count. -/
def Cls.hasMethod (c : Cls) (n : String) (argumentCount : Nat) : Bool :=
  match c.getMethod n with
  | some m => m.formalParams.length == argumentCount
  | none => false

/-- A runtime object (`runtime::Object` subclasses): `Number`, `String`,
`Bool`, `Class`, `ClassInstance`.  An instance carries its class and its
field map. -/
inductive Obj where
  | num (v : Int)
  | str (s : String)
  | bool (b : Bool)
  | cls (c : Cls)
  | inst (c : Cls) (fields : Closure)

/-- The heap: objects indexed by address. -/
abbrev Heap := List Obj

def heapGet (h : Heap) (a : Addr) : Option Obj :=
  h.get? a

def heapSet (h : Heap) (a : Addr) (o : Obj) : Heap :=
  h.set a o

/-- Allocate a fresh object (`ObjectHolder::Own`). -/
def alloc (h : Heap) (o : Obj) : Heap × Addr :=
  (h ++ [o], h.length)

/-- `runtime::IsTrue`: empty handle is false; `Bool` by value; `Number` by
nonzero; `String` by non-emptiness; everything else false. -/
def isTrue (heap : Heap) (h : Handle) : Bool :=
  match h with
  | none => false
  | some a =>
    match heapGet heap a with
    | some (.bool b) => b
    | some (.num v) => v != 0
    | some (.str s) => !s.isEmpty
    | _ => false

/-- One item written to an output stream: plain text, or the pointer value
an instance without `__str__` prints (`os << this`). -/
inductive OutTok where
  | txt (s : String)
  | ptr (a : Addr)

abbrev Output := List OutTok

/-- Rendering of a pointer by `operator<<`.  The concrete text is
implementation-defined in C++; it is modelled as an opaque injective
rendering of the address. -/
def ptrRepr (a : Addr) : String :=
  "0x" ++ toString a

/-- Collapse captured stream items to the string an `ostringstream` holds. -/
def renderToks (ts : List OutTok) : String :=
  ts.foldl (fun acc t => acc ++ match t with | .txt s => s | .ptr a => ptrRepr a) ""

/-- Evaluation errors.  `rt` is a thrown `std::runtime_error` with its
message; `ub` marks undefined behaviour in the C++ (null dereference,
`at` on a missing key); `fuel` is the artificial out-of-fuel signal. -/
inductive Err where
  | rt (msg : String)
  | ub
  | fuel

/-- C++ integer division (truncation toward zero). -/
def cppDiv (x y : Int) : Int :=
  Int.tdiv x y

/-- The dotted-path loop of `VariableValue::Execute`: walk field maps,
default-inserting missing fields through `operator[]`; a non-instance
intermediate raises "unknown field". -/
def resolvePath : List String → Handle → Heap → Except Err (Handle × Heap)
  | [], h, heap => .ok (h, heap)
  | f :: rest, h, heap =>
    match h with
    | some a =>
      match heapGet heap a with
      | some (.inst c flds) =>
        let (v, flds1) := cloGetOrInsert flds f
        resolvePath rest v (heapSet heap a (.inst c flds1))
      | some _ => .error (.rt ("unknown field " ++ f))
      | none => .error .ub
    | none => .error (.rt ("unknown field " ++ f))

/-- `TryAs<Number>` composed with `GetValue`. -/
def asNum (heap : Heap) (h : Handle) : Option Int :=
  match h with
  | some a =>
    match heapGet heap a with
    | some (.num v) => some v
    | _ => none
  | none => none

/-- Bind formal parameters positionally (`closure[formal_params[i]] =
actual_args[i]`). -/
def bindParams : Closure → List String → List Handle → Closure
  | clo, p :: ps, v :: vs => bindParams (cloSet clo p v) ps vs
  | clo, _, _ => clo

/-- The fresh call scope of `ClassInstance::Call`: only `self` (a non-owning
alias of the receiver) and the formal parameters. -/
def mkCallScope (a : Addr) (formals : List String) (args : List Handle) : Closure :=
  bindParams (cloSet [] ("self") (some a)) formals args

mutual

/-- `Statement::Execute` for every node of `statement.cpp`.  Returns the
produced handle together with the updated scope, heap and output. -/
def execStmt : Nat → Stmt → Closure → Heap → Output →
    Except Err (Handle × Closure × Heap × Output)
  | 0, _, _, _, _ => .error .fuel
  | n + 1, s, clo, heap, out =>
    match s with
    | .assignment var rv =>
      match execStmt n rv clo heap out with
      | .error e => .error e
      | .ok (v, clo1, heap1, out1) => .ok (v, cloSet clo1 var v, heap1, out1)
    | .variableValue ids =>
      match ids with
      | [] => .error .ub
      | x :: rest =>
        match cloGet clo x with
        | none => .error (.rt ("unknown variable " ++ x))
        | some h =>
          match resolvePath rest h heap with
          | .error e => .error e
          | .ok (v, heap1) => .ok (v, clo, heap1, out)
    | .printStmt args =>
      match printItems n args clo heap out with
      | .error e => .error e
      | .ok (clo1, heap1, out1) => .ok (none, clo1, heap1, out1 ++ [.txt ("\n")])
    | .methodCall obj m args =>
      match execArgs n args clo heap out with
      | .error e => .error e
      | .ok (hs, clo1, heap1, out1) =>
        match execStmt n obj clo1 heap1 out1 with
        | .error e => .error e
        | .ok (ho, clo2, heap2, out2) =>
          match ho with
          | some a =>
            match heapGet heap2 a with
            | some (.inst _ _) =>
              match instCall n a m hs heap2 out2 with
              | .error e => .error e
              | .ok (v, heap3, out3) => .ok (v, clo2, heap3, out3)
            | _ => .error .ub
          | none => .error .ub
    | .stringify arg =>
      match execStmt n arg clo heap out with
      | .error e => .error e
      | .ok (v, clo1, heap1, out1) =>
        match v with
        | none =>
          let (heap2, a) := alloc heap1 (.str ("None"))
          .ok (some a, clo1, heap2, out1)
        | some av =>
          match heapGet heap1 av with
          | some (.inst c _) =>
            if c.hasMethod ("__str__") 0 then
              match instCall n av ("__str__") [] heap1 out1 with
              | .error e => .error e
              | .ok (sv, heap2, out2) =>
                match sv with
                | none => .error .ub
                | some sa =>
                  match objPrint n sa heap2 out2 with
                  | .error e => .error e
                  | .ok (heap3, out3, delta) =>
                    let (heap4, r) := alloc heap3 (.str (renderToks delta))
                    .ok (some r, clo1, heap4, out3)
            else
              match objPrint n av heap1 out1 with
              | .error e => .error e
              | .ok (heap2, out2, delta) =>
                let (heap3, r) := alloc heap2 (.str (renderToks delta))
                .ok (some r, clo1, heap3, out2)
          | _ =>
            match objPrint n av heap1 out1 with
            | .error e => .error e
            | .ok (heap2, out2, delta) =>
              let (heap3, r) := alloc heap2 (.str (renderToks delta))
              .ok (some r, clo1, heap3, out2)
    | .add l r =>
      match execStmt n l clo heap out with
      | .error e => .error e
      | .ok (lv, clo1, heap1, out1) =>
        match execStmt n r clo1 heap1 out1 with
        | .error e => .error e
        | .ok (rv, clo2, heap2, out2) =>
          match lv with
          | some la =>
            match heapGet heap2 la with
            | some (.num x) =>
              (match rv with
               | some ra =>
                 (match heapGet heap2 ra with
                  | some (.num y) =>
                    let (heap3, a) := alloc heap2 (.num (x + y))
                    .ok (some a, clo2, heap3, out2)
                  | _ => .error (.rt ("invalid add operation")))
               | none => .error (.rt ("invalid add operation")))
            | some (.str sx) =>
              (match rv with
               | some ra =>
                 (match heapGet heap2 ra with
                  | some (.str sy) =>
                    let (heap3, a) := alloc heap2 (.str (sx ++ sy))
                    .ok (some a, clo2, heap3, out2)
                  | _ => .error (.rt ("invalid add operation")))
               | none => .error (.rt ("invalid add operation")))
            | some (.inst c _) =>
              if c.hasMethod ("__add__") 1 then
                match instCall n la ("__add__") [rv] heap2 out2 with
                | .error e => .error e
                | .ok (v, heap3, out3) => .ok (v, clo2, heap3, out3)
              else .error (.rt ("invalid add operation"))
            | _ => .error (.rt ("invalid add operation"))
          | none => .error (.rt ("invalid add operation"))
    | .sub l r =>
      match execStmt n l clo heap out with
      | .error e => .error e
      | .ok (lv, clo1, heap1, out1) =>
        match execStmt n r clo1 heap1 out1 with
        | .error e => .error e
        | .ok (rv, clo2, heap2, out2) =>
          match asNum heap2 lv, asNum heap2 rv with
          | some x, some y =>
            let (heap3, a) := alloc heap2 (.num (x - y))
            .ok (some a, clo2, heap3, out2)
          | _, _ => .error (.rt ("invalid subtract operation"))
    | .mult l r =>
      match execStmt n l clo heap out with
      | .error e => .error e
      | .ok (lv, clo1, heap1, out1) =>
        match execStmt n r clo1 heap1 out1 with
        | .error e => .error e
        | .ok (rv, clo2, heap2, out2) =>
          match asNum heap2 lv, asNum heap2 rv with
          | some x, some y =>
            let (heap3, a) := alloc heap2 (.num (x * y))
            .ok (some a, clo2, heap3, out2)
          | _, _ => .error (.rt ("invalid mult operation"))
    | .div l r =>
      match execStmt n l clo heap out with
      | .error e => .error e
      | .ok (lv, clo1, heap1, out1) =>
        match execStmt n r clo1 heap1 out1 with
        | .error e => .error e
        | .ok (rv, clo2, heap2, out2) =>
          match asNum heap2 lv, asNum heap2 rv with
          | some x, some y =>
            if y ≠ 0 then
              let (heap3, a) := alloc heap2 (.num (cppDiv x y))
              .ok (some a, clo2, heap3, out2)
            else .error (.rt ("division by zero"))
          | _, _ => .error (.rt ("invalid div operation"))
    | .compound ss =>
      match execSeq n ss clo heap out with
      | .error e => .error e
      | .ok (clo1, heap1, out1) => .ok (none, clo1, heap1, out1)
    | .ret e =>
      match execStmt n e clo heap out with
      | .error e => .error e
      | .ok (v, clo1, heap1, out1) =>
        .ok (none, cloSet clo1 ("returned_value") v, heap1, out1)
    | .classDef c =>
      let (heap1, a) := alloc heap (.cls c)
      .ok (none, cloSet clo c.name (some a), heap1, out)
    | .fieldAssign objIds field rv =>
      match objIds with
      | [] => .error .ub
      | x :: restIds =>
        match cloGet clo x with
        | none => .error (.rt ("unknown variable " ++ x))
        | some h =>
          match resolvePath restIds h heap with
          | .error e => .error e
          | .ok (ho, heap1) =>
            match ho with
            | some a =>
              match heapGet heap1 a with
              | some (.inst _ _) =>
                match execStmt n rv clo heap1 out with
                | .error e => .error e
                | .ok (v, clo1, heap2, out1) =>
                  match heapGet heap2 a with
                  | some (.inst c2 flds2) =>
                    .ok (v, clo1, heapSet heap2 a (.inst c2 (cloSet flds2 field v)), out1)
                  | _ => .error .ub
              | _ => .error .ub
            | none => .error .ub
    | .ifElse cond thenB elseB =>
      match execStmt n cond clo heap out with
      | .error e => .error e
      | .ok (cv, clo1, heap1, out1) =>
        if isTrue heap1 cv then
          match execStmt n thenB clo1 heap1 out1 with
          | .error e => .error e
          | .ok (_, clo2, heap2, out2) => .ok (none, clo2, heap2, out2)
        else
          match elseB with
          | some eb =>
            match execStmt n eb clo1 heap1 out1 with
            | .error e => .error e
            | .ok (_, clo2, heap2, out2) => .ok (none, clo2, heap2, out2)
          | none => .ok (none, clo1, heap1, out1)
    | .orStmt l r =>
      match execStmt n l clo heap out with
      | .error e => .error e
      | .ok (lv, clo1, heap1, out1) =>
        if isTrue heap1 lv then
          let (heap2, a) := alloc heap1 (.bool true)
          .ok (some a, clo1, heap2, out1)
        else
          match execStmt n r clo1 heap1 out1 with
          | .error e => .error e
          | .ok (rv2, clo2, heap2, out2) =>
            let (heap3, a) := alloc heap2 (.bool (isTrue heap2 rv2))
            .ok (some a, clo2, heap3, out2)
    | .andStmt l r =>
      match execStmt n l clo heap out with
      | .error e => .error e
      | .ok (lv, clo1, heap1, out1) =>
        if isTrue heap1 lv then
          match execStmt n r clo1 heap1 out1 with
          | .error e => .error e
          | .ok (rv2, clo2, heap2, out2) =>
            let (heap3, a) := alloc heap2 (.bool (isTrue heap2 rv2))
            .ok (some a, clo2, heap3, out2)
        else
          let (heap2, a) := alloc heap1 (.bool false)
          .ok (some a, clo1, heap2, out1)
    | .notStmt e =>
      match execStmt n e clo heap out with
      | .error er => .error er
      | .ok (v, clo1, heap1, out1) =>
        let (heap2, a) := alloc heap1 (.bool (!isTrue heap1 v))
        .ok (some a, clo1, heap2, out1)
    | .comparison cmp l r =>
      match execStmt n l clo heap out with
      | .error e => .error e
      | .ok (lv, clo1, heap1, out1) =>
        match execStmt n r clo1 heap1 out1 with
        | .error e => .error e
        | .ok (rv2, clo2, heap2, out2) =>
          match applyCmp n cmp lv rv2 heap2 out2 with
          | .error e => .error e
          | .ok (b, heap3, out3) =>
            let (heap4, a) := alloc heap3 (.bool b)
            .ok (some a, clo2, heap4, out3)
    | .newInstance c args =>
      let (heap1, a) := alloc heap (.inst c [])
      match c.getMethod ("__init__") with
      | none => .ok (some a, clo, heap1, out)
      | some meth =>
        if meth.formalParams.length ≠ args.length then .ok (some a, clo, heap1, out)
        else
          match execArgs n args clo heap1 out with
          | .error e => .error e
          | .ok (hs, clo1, heap2, out1) =>
            match instCall n a ("__init__") hs heap2 out1 with
            | .error e => .error e
            | .ok (v, heap3, out2) =>
              match v with
              | some _ => .ok (v, clo1, heap3, out2)
              | none => .ok (some a, clo1, heap3, out2)
    | .methodBody b =>
      match execStmt n b clo heap out with
      | .error e => .error e
      | .ok (_, clo1, heap1, out1) =>
        match cloGet clo1 ("returned_value") with
        | some v => .ok (v, clo1, heap1, out1)
        | none => .ok (none, clo1, heap1, out1)

/-- Evaluate argument expressions left to right (`MethodCall::Execute`,
`NewInstance::Execute`). -/
def execArgs : Nat → List Stmt → Closure → Heap → Output →
    Except Err (List Handle × Closure × Heap × Output)
  | 0, _, _, _, _ => .error .fuel
  | _ + 1, [], clo, heap, out => .ok ([], clo, heap, out)
  | n + 1, s :: rest, clo, heap, out =>
    match execStmt n s clo heap out with
    | .error e => .error e
    | .ok (v, clo1, heap1, out1) =>
      match execArgs n rest clo1 heap1 out1 with
      | .error e => .error e
      | .ok (vs, clo2, heap2, out2) => .ok (v :: vs, clo2, heap2, out2)

/-- The loop of `Compound::Execute`: run statements in order, stopping as
soon as the scope contains `returned_value`. -/
def execSeq : Nat → List Stmt → Closure → Heap → Output →
    Except Err (Closure × Heap × Output)
  | 0, _, _, _, _ => .error .fuel
  | _ + 1, [], clo, heap, out => .ok (clo, heap, out)
  | n + 1, s :: rest, clo, heap, out =>
    match execStmt n s clo heap out with
    | .error e => .error e
    | .ok (_, clo1, heap1, out1) =>
      if cloContains clo1 ("returned_value") then .ok (clo1, heap1, out1)
      else execSeq n rest clo1 heap1 out1

/-- The loop of `Print::Execute`: print each evaluated argument (or `None`
for an empty handle), separating items with single spaces. -/
def printItems : Nat → List Stmt → Closure → Heap → Output →
    Except Err (Closure × Heap × Output)
  | 0, _, _, _, _ => .error .fuel
  | _ + 1, [], clo, heap, out => .ok (clo, heap, out)
  | n + 1, s :: rest, clo, heap, out =>
    match execStmt n s clo heap out with
    | .error e => .error e
    | .ok (v, clo1, heap1, out1) =>
      match
        ((match v with
          | some a =>
            (match objPrint n a heap1 out1 with
             | .error e => .error e
             | .ok (h2, o2, delta) => .ok (h2, o2 ++ delta))
          | none => .ok (heap1, out1 ++ [.txt ("None")])) :
          Except Err (Heap × Output)) with
      | .error e => .error e
      | .ok (heap2, out2) =>
        let out3 := if rest.isEmpty then out2 else out2 ++ [.txt (" ")]
        printItems n rest clo1 heap2 out3

/-- `Object::Print` dispatched on the object's dynamic type.  Returns the
updated heap and context output together with what was written to the
target stream (`ClassInstance::Print` may itself call `__str__`, whose
side effects go to the context stream). -/
def objPrint : Nat → Addr → Heap → Output →
    Except Err (Heap × Output × List OutTok)
  | 0, _, _, _ => .error .fuel
  | n + 1, a, heap, out =>
    match heapGet heap a with
    | some (.num v) => .ok (heap, out, [.txt (toString v)])
    | some (.str s) => .ok (heap, out, [.txt s])
    | some (.bool b) => .ok (heap, out, [.txt (if b then ("True") else ("False"))])
    | some (.cls c) => .ok (heap, out, [.txt ("Class " ++ c.name)])
    | some (.inst c _) =>
      if (c.getMethod ("__str__")).isSome then
        match instCall n a ("__str__") [] heap out with
        | .error e => .error e
        | .ok (v, heap1, out1) =>
          match v with
          | some va =>
            (match heapGet heap1 va with
             | some (.str s) => .ok (heap1, out1, [.txt s])
             | _ => .error .ub)
          | none => .error .ub
      else .ok (heap, out, [.ptr a])
    | none => .error .ub

/-- `ClassInstance::Call`: check the method exists with matching arity,
build the fresh call scope (`self` plus formals), execute the body, and
return the rebound `self` when the scope's `self` no longer refers to the
receiver, otherwise the body's result. -/
def instCall : Nat → Addr → String → List Handle → Heap → Output →
    Except Err (Handle × Heap × Output)
  | 0, _, _, _, _, _ => .error .fuel
  | n + 1, a, m, args, heap, out =>
    match heapGet heap a with
    | some (.inst c _) =>
      if c.hasMethod m args.length then
        match c.getMethod m with
        | some meth =>
          match execStmt n meth.body (mkCallScope a meth.formalParams args) heap out with
          | .error e => .error e
          | .ok (v, clo1, heap1, out1) =>
            match cloGet clo1 ("self") with
            | some h => if h ≠ some a then .ok (h, heap1, out1) else .ok (v, heap1, out1)
            | none => .error .ub
        | none => .error .ub
      else .error (.rt ("method not found"))
    | _ => .error .ub

/-- `runtime::Equal`. -/
def equalFn : Nat → Handle → Handle → Heap → Output →
    Except Err (Bool × Heap × Output)
  | 0, _, _, _, _ => .error .fuel
  | n + 1, l, r, heap, out =>
    if l = none ∧ r = none then .ok (true, heap, out)
    else
      match l with
      | some la =>
        match heapGet heap la with
        | some (.str sx) =>
          (match r with
           | some ra =>
             (match heapGet heap ra with
              | some (.str sy) => .ok (sx == sy, heap, out)
              | _ => .error (.rt ("Cannot compare objects for equality")))
           | none => .error (.rt ("Cannot compare objects for equality")))
        | some (.num x) =>
          (match r with
           | some ra =>
             (match heapGet heap ra with
              | some (.num y) => .ok (x == y, heap, out)
              | _ => .error (.rt ("Cannot compare objects for equality")))
           | none => .error (.rt ("Cannot compare objects for equality")))
        | some (.bool x) =>
          (match r with
           | some ra =>
             (match heapGet heap ra with
              | some (.bool y) => .ok (x == y, heap, out)
              | _ => .error (.rt ("Cannot compare objects for equality")))
           | none => .error (.rt ("Cannot compare objects for equality")))
        | some (.inst c _) =>
          if c.hasMethod ("__eq__") 1 then
            match instCall n la ("__eq__") [r] heap out with
            | .error e => .error e
            | .ok (v, heap1, out1) => .ok (isTrue heap1 v, heap1, out1)
          else .error (.rt ("Cannot compare objects for equality"))
        | some (.cls _) => .error (.rt ("Cannot compare objects for equality"))
        | none => .error .ub
      | none => .error (.rt ("Cannot compare objects for equality"))

/-- `runtime::Less`. -/
def lessFn : Nat → Handle → Handle → Heap → Output →
    Except Err (Bool × Heap × Output)
  | 0, _, _, _, _ => .error .fuel
  | n + 1, l, r, heap, out =>
    match l with
    | some la =>
      match heapGet heap la with
      | some (.str sx) =>
        (match r with
         | some ra =>
           (match heapGet heap ra with
            | some (.str sy) => .ok (decide (sx < sy), heap, out)
            | _ => .error (.rt ("Cannot compare objects for less")))
         | none => .error (.rt ("Cannot compare objects for less")))
      | some (.num x) =>
        (match r with
         | some ra =>
           (match heapGet heap ra with
            | some (.num y) => .ok (decide (x < y), heap, out)
            | _ => .error (.rt ("Cannot compare objects for less")))
         | none => .error (.rt ("Cannot compare objects for less")))
      | some (.bool x) =>
        (match r with
         | some ra =>
           (match heapGet heap ra with
            | some (.bool y) => .ok (!x && y, heap, out)
            | _ => .error (.rt ("Cannot compare objects for less")))
         | none => .error (.rt ("Cannot compare objects for less")))
      | some (.inst c _) =>
        if c.hasMethod ("__lt__") 1 then
          match instCall n la ("__lt__") [r] heap out with
          | .error e => .error e
          | .ok (v, heap1, out1) => .ok (isTrue heap1 v, heap1, out1)
        else .error (.rt ("Cannot compare objects for less"))
      | some (.cls _) => .error (.rt ("Cannot compare objects for less"))
      | none => .error .ub
    | none => .error (.rt ("Cannot compare objects for less"))

/-- `runtime::NotEqual`. -/
def notEqualFn : Nat → Handle → Handle → Heap → Output →
    Except Err (Bool × Heap × Output)
  | 0, _, _, _, _ => .error .fuel
  | n + 1, l, r, heap, out =>
    match equalFn n l r heap out with
    | .error e => .error e
    | .ok (b, heap1, out1) => .ok (!b, heap1, out1)

/-- `runtime::Greater` (`!(Less || Equal)` with C++ short-circuiting). -/
def greaterFn : Nat → Handle → Handle → Heap → Output →
    Except Err (Bool × Heap × Output)
  | 0, _, _, _, _ => .error .fuel
  | n + 1, l, r, heap, out =>
    match lessFn n l r heap out with
    | .error e => .error e
    | .ok (b1, heap1, out1) =>
      if b1 then .ok (false, heap1, out1)
      else
        match equalFn n l r heap1 out1 with
        | .error e => .error e
        | .ok (b2, heap2, out2) => .ok (!b2, heap2, out2)

/-- `runtime::LessOrEqual` (`!Greater`). -/
def lessOrEqualFn : Nat → Handle → Handle → Heap → Output →
    Except Err (Bool × Heap × Output)
  | 0, _, _, _, _ => .error .fuel
  | n + 1, l, r, heap, out =>
    match greaterFn n l r heap out with
    | .error e => .error e
    | .ok (b, heap1, out1) => .ok (!b, heap1, out1)

/-- `runtime::GreaterOrEqual` (`!Less`). -/
def greaterOrEqualFn : Nat → Handle → Handle → Heap → Output →
    Except Err (Bool × Heap × Output)
  | 0, _, _, _, _ => .error .fuel
  | n + 1, l, r, heap, out =>
    match lessFn n l r heap out with
    | .error e => .error e
    | .ok (b, heap1, out1) => .ok (!b, heap1, out1)

/-- Apply the comparator stored in a `Comparison` node. -/
def applyCmp : Nat → Cmp → Handle → Handle → Heap → Output →
    Except Err (Bool × Heap × Output)
  | 0, _, _, _, _, _ => .error .fuel
  | n + 1, c, l, r, heap, out =>
    match c with
    | .eq => equalFn n l r heap out
    | .notEq => notEqualFn n l r heap out
    | .less => lessFn n l r heap out
    | .greater => greaterFn n l r heap out
    | .lessOrEq => lessOrEqualFn n l r heap out
    | .greaterOrEq => greaterOrEqualFn n l r heap out

end

/-! ## Closure and scope lemmas -/

theorem cloGet_cloSet_self (c : Closure) (k : String) (v : Handle) :
    cloGet (cloSet c k v) k = some v := by
  induction c with
  | nil => simp [cloSet, cloGet]
  | cons kv rest ih =>
    obtain ⟨k', w⟩ := kv
    by_cases h : k' = k <;> simp [cloSet, cloGet, h, ih]

theorem cloGet_cloSet_ne (c : Closure) (k n : String) (v : Handle) (h : k ≠ n) :
    cloGet (cloSet c k v) n = cloGet c n := by
  induction c with
  | nil => simp [cloSet, cloGet, h]
  | cons kv rest ih =>
    obtain ⟨k', w⟩ := kv
    by_cases h' : k' = k
    · subst h'
      simp [cloSet, cloGet, h]
    · by_cases h'' : k' = n <;> simp [cloSet, cloGet, h', h'', Ne.symm h, ih]

theorem cloContains_cloSet_self (c : Closure) (k : String) (v : Handle) :
    cloContains (cloSet c k v) k = true := by
  simp [cloContains, cloGet_cloSet_self]

theorem bindParams_lookup_nin (ps : List String) (vs : List Handle) (clo : Closure)
    (x : String) (hx : x ∉ ps) :
    cloGet (bindParams clo ps vs) x = cloGet clo x := by
  induction ps generalizing vs clo with
  | nil => cases vs <;> simp [bindParams]
  | cons p ps ih =>
    simp only [List.mem_cons, not_or] at hx
    cases vs with
    | nil => simp [bindParams]
    | cons v vs =>
      rw [show bindParams clo (p :: ps) (v :: vs) = bindParams (cloSet clo p v) ps vs from rfl]
      rw [ih vs _ hx.2, cloGet_cloSet_ne _ _ _ _ (Ne.symm hx.1)]

theorem mkCallScope_lookup (a : Addr) (formals : List String) (args : List Handle)
    (x : String) (hx1 : x ≠ ("self")) (hx2 : x ∉ formals) :
    cloGet (mkCallScope a formals args) x = none := by
  unfold mkCallScope
  rw [bindParams_lookup_nin _ _ _ _ hx2]
  simp [cloSet, cloGet, Ne.symm hx1]

theorem cloGetOrInsert_missing (flds : Closure) (f : String) (h : cloGet flds f = none) :
    cloGetOrInsert flds f = (none, flds ++ [(f, none)]) := by
  induction flds with
  | nil => simp [cloGetOrInsert]
  | cons kv rest ih =>
    obtain ⟨k, w⟩ := kv
    have hk : ¬k = f := by
      intro e
      simp [cloGet, e] at h
    rw [show cloGet ((k, w) :: rest) f = if k = f then some w else cloGet rest f from rfl] at h
    rw [if_neg hk] at h
    simp [cloGetOrInsert, hk, ih h]

theorem hasMethod_of_getMethod (cls : Cls) (m : String) (meth : Mthd) (k : Nat)
    (h1 : cls.getMethod m = some meth) (h2 : meth.formalParams.length = k) :
    cls.hasMethod m k = true := by
  unfold Cls.hasMethod
  rw [h1]
  simp [h2]

/-! ## C1 — rebound `self` decides the result of `ClassInstance::Call` -/

/-- C1: for every method call on an instance (method found with matching
arity, body execution succeeding), if after the body the call scope's
`self` binding no longer refers to the receiver that was bound at entry,
`Call` returns that rebound value; otherwise it returns the body's result. -/
theorem c1_call_returns_rebound_self
    (n : Nat) (a : Addr) (cls : Cls) (flds : Closure) (m : String) (meth : Mthd)
    (args : List Handle) (heap heap' : Heap) (out out' : Output)
    (v h' : Handle) (clo' : Closure)
    (hinst : heapGet heap a = some (.inst cls flds))
    (hfind : cls.getMethod m = some meth)
    (harity : meth.formalParams.length = args.length)
    (hbody : execStmt n meth.body (mkCallScope a meth.formalParams args) heap out
      = .ok (v, clo', heap', out'))
    (hself : cloGet clo' ("self") = some h') :
    instCall (n + 1) a m args heap out
      = .ok (if h' = some a then v else h', heap', out') := by
  have hhm := hasMethod_of_getMethod cls m meth args.length hfind harity
  by_cases hc : h' = some a <;>
    simp only [instCall, hinst, hhm, if_true, hfind, hbody, hself, hc, ite_true,
      ite_false, ne_eq, not_true_eq_false, not_false_eq_true, if_neg, if_pos]

/-- Witness for C1: a no-op method body leaves `self` bound to the
receiver, so the call returns the body's result (`None`). -/
theorem c1_witness :
    instCall 3 0 ("m") [] [Obj.inst (.mk ("A") [.mk ("m") [] (.compound [])] none) []] []
      = .ok (none, [Obj.inst (.mk ("A") [.mk ("m") [] (.compound [])] none) []], []) := by
  have h := c1_call_returns_rebound_self 2 0
    (.mk ("A") [.mk ("m") [] (.compound [])] none) [] ("m")
    (.mk ("m") [] (.compound [])) []
    [Obj.inst (.mk ("A") [.mk ("m") [] (.compound [])] none) []]
    [Obj.inst (.mk ("A") [.mk ("m") [] (.compound [])] none) []]
    [] [] none (some 0) [(("self"), some 0)] rfl rfl rfl rfl rfl
  simpa using h

/-! ## C3 — compound statements and the `returned_value` sentinel -/

/-- C3: a `Compound` executes its statements in order; as soon as the scope
contains `returned_value` after some statement, no later statement runs and
the compound returns `None`; a `Return` binds its expression's value to
`returned_value`, so no sibling after a `Return` executes. -/
theorem c3_compound_return_sentinel
    (n : Nat) (s1 : Stmt) (rest : List Stmt) (clo clo1 : Closure)
    (heap heap1 : Heap) (out out1 : Output) (v : Handle)
    (h1 : execStmt n s1 clo heap out = .ok (v, clo1, heap1, out1)) :
    (cloContains clo1 ("returned_value") = true →
      execStmt (n + 2) (.compound (s1 :: rest)) clo heap out = .ok (none, clo1, heap1, out1))
    ∧ (cloContains clo1 ("returned_value") = false →
      execStmt (n + 2) (.compound (s1 :: rest)) clo heap out
        = (match execSeq n rest clo1 heap1 out1 with
           | .error e => .error e
           | .ok (c2, h2, o2) => .ok (none, c2, h2, o2)))
    ∧ (∀ e ev clo2 heap2 out2,
        execStmt n e clo heap out = .ok (ev, clo2, heap2, out2) →
        execStmt (n + 1) (.ret e) clo heap out
          = .ok (none, cloSet clo2 ("returned_value") ev, heap2, out2)
        ∧ execStmt (n + 3) (.compound (.ret e :: rest)) clo heap out
          = .ok (none, cloSet clo2 ("returned_value") ev, heap2, out2)) := by
  refine ⟨fun hc => ?_, fun hc => ?_, fun e ev clo2 heap2 out2 he => ⟨?_, ?_⟩⟩
  · show execStmt (n + 1 + 1) (.compound (s1 :: rest)) clo heap out = _
    simp only [execStmt, execSeq, h1, hc, if_true]
  · show execStmt (n + 1 + 1) (.compound (s1 :: rest)) clo heap out = _
    simp only [execStmt, execSeq, h1, hc, if_false, Bool.false_eq_true]
  · simp only [execStmt, he]
  · show execStmt (n + 2 + 1) (.compound (.ret e :: rest)) clo heap out = _
    simp only [execStmt, execSeq, he, cloContains_cloSet_self, if_true]

/-- Witness for C3: the first statement leaves `returned_value` in scope, so
the second statement of the compound is skipped and the result is `None`. -/
theorem c3_witness :
    execStmt 4 (.compound [.compound [], .compound []])
      [(("returned_value"), none)] [] []
      = .ok (none, [(("returned_value"), none)], [], []) :=
  (c3_compound_return_sentinel 2 (.compound []) [.compound []]
    [(("returned_value"), none)] [(("returned_value"), none)] [] [] [] [] none rfl).1 rfl

/-! ## C4 — reflexivity of `runtime::Equal` -/

/-- C4 counterexample: `Equal` applied to one and the same `Class` value
throws "Cannot compare objects for equality" instead of returning true. -/
theorem c4_equal_counterexample :
    equalFn 1 (some 0) (some 0) [Obj.cls (.mk ("A") [] none)] []
      = .error (.rt ("Cannot compare objects for equality")) := rfl

/-- C4 (amended): `Equal(x, x)` is true for `None`, `Number`, `String` and
`Bool` values; for a `Class` value it throws, and for an `Instance` without
an `__eq__` of arity 1 it throws as well. -/
theorem c4_equal_reflexive_amended :
    (∀ (f : Nat) (heap : Heap) (out : Output),
      equalFn (f + 1) none none heap out = .ok (true, heap, out))
    ∧ (∀ (f : Nat) (heap : Heap) (out : Output) (a : Addr) (v : Int),
        heapGet heap a = some (.num v) →
        equalFn (f + 1) (some a) (some a) heap out = .ok (true, heap, out))
    ∧ (∀ (f : Nat) (heap : Heap) (out : Output) (a : Addr) (s : String),
        heapGet heap a = some (.str s) →
        equalFn (f + 1) (some a) (some a) heap out = .ok (true, heap, out))
    ∧ (∀ (f : Nat) (heap : Heap) (out : Output) (a : Addr) (b : Bool),
        heapGet heap a = some (.bool b) →
        equalFn (f + 1) (some a) (some a) heap out = .ok (true, heap, out))
    ∧ (∀ (f : Nat) (heap : Heap) (out : Output) (a : Addr) (c : Cls),
        heapGet heap a = some (.cls c) →
        equalFn (f + 1) (some a) (some a) heap out
          = .error (.rt ("Cannot compare objects for equality")))
    ∧ (∀ (f : Nat) (heap : Heap) (out : Output) (a : Addr) (c : Cls) (flds : Closure),
        heapGet heap a = some (.inst c flds) →
        c.hasMethod ("__eq__") 1 = false →
        equalFn (f + 1) (some a) (some a) heap out
          = .error (.rt ("Cannot compare objects for equality"))) := by
  refine ⟨fun f heap out => ?_,
    fun f heap out a v h => ?_,
    fun f heap out a s h => ?_,
    fun f heap out a b h => ?_,
    fun f heap out a c h => ?_,
    fun f heap out a c flds h hm => ?_⟩ <;>
    simp [equalFn, *]

/-- Witness for C4 (amended): a `Number` compares equal to itself. -/
theorem c4_witness :
    equalFn 1 (some 0) (some 0) [Obj.num 7] [] = .ok (true, [Obj.num 7], []) :=
  c4_equal_reflexive_amended.2.1 0 [Obj.num 7] [] 0 7 rfl

/-! ## C5 — `NewInstance::Execute` -/

/-- A class whose `__init__` takes no arguments and does nothing. -/
def c5Cls : Cls := .mk ("A") [.mk ("__init__") [] (.compound [])] none

/-- C5 counterexample: with a matching no-op `__init__`, the dispatch of
`__init__` produces an empty handle, yet `NewInstance` returns the fresh
instance (`some 0`), not the dispatch result — so "the resulting handle is
returned" fails as stated. -/
theorem c5_new_instance_counterexample :
    execStmt 5 (.newInstance c5Cls []) [] [] []
      = .ok (some 0, [], [Obj.inst c5Cls []], [])
    ∧ instCall 4 0 ("__init__") [] [Obj.inst c5Cls []] []
      = .ok (none, [Obj.inst c5Cls []], [])
    ∧ (some 0 : Handle) ≠ none :=
  ⟨rfl, rfl, by decide⟩

/-- C5 (amended): `NewInstance` creates a fresh instance; with no `__init__`
or mismatched arity it returns the fresh instance without evaluating the
arguments; with a matching `__init__` it evaluates the arguments, dispatches
`__init__` on the new instance, and returns the dispatch result when that
handle is non-empty, else the fresh instance. -/
theorem c5_new_instance_amended
    (n : Nat) (c : Cls) (args : List Stmt) (clo : Closure) (heap : Heap) (out : Output) :
    (c.getMethod ("__init__") = none →
      execStmt (n + 1) (.newInstance c args) clo heap out
        = .ok (some heap.length, clo, heap ++ [.inst c []], out))
    ∧ (∀ meth, c.getMethod ("__init__") = some meth →
        meth.formalParams.length ≠ args.length →
        execStmt (n + 1) (.newInstance c args) clo heap out
          = .ok (some heap.length, clo, heap ++ [.inst c []], out))
    ∧ (∀ meth hs clo1 heap2 out1 v heap3 out2,
        c.getMethod ("__init__") = some meth →
        meth.formalParams.length = args.length →
        execArgs n args clo (heap ++ [.inst c []]) out = .ok (hs, clo1, heap2, out1) →
        instCall n heap.length ("__init__") hs heap2 out1 = .ok (v, heap3, out2) →
        execStmt (n + 1) (.newInstance c args) clo heap out
          = .ok ((match v with | some _ => v | none => some heap.length), clo1, heap3, out2)) := by
  refine ⟨fun h => ?_, fun meth h hne => ?_, fun meth hs clo1 heap2 out1 v heap3 out2 h hlen hargs hcall => ?_⟩
  · simp [execStmt, alloc, h]
  · simp [execStmt, alloc, h, hne]
  · cases v <;> simp [execStmt, alloc, h, hlen, hargs, hcall]

/-- Witness for C5 (amended): a class without `__init__` yields the fresh
instance. -/
theorem c5_witness :
    execStmt 1 (.newInstance (.mk ("B") [] none) []) [] [] []
      = .ok (some 0, [], [Obj.inst (.mk ("B") [] none) []], []) :=
  (c5_new_instance_amended 0 (.mk ("B") [] none) [] [] [] []).1 rfl

/-! ## C6 — method-call isolation -/

/-- C6: the call scope built by `ClassInstance::Call` contains only `self`
and the formal parameters, so a method body cannot read any other name: the
lookup of such a name in the entry scope is empty, and a body that reads it
fails with "unknown variable" no matter what the caller's scope contains
(the caller's scope is not consulted — `Call` never receives it). -/
theorem c6_method_call_isolation
    (a : Addr) (formals : List String) (args : List Handle) (x : String)
    (hx1 : x ≠ ("self")) (hx2 : x ∉ formals) :
    cloGet (mkCallScope a formals args) x = none
    ∧ (∀ (n : Nat) (cls : Cls) (flds : Closure) (m : String) (meth : Mthd)
        (heap : Heap) (out : Output),
        heapGet heap a = some (.inst cls flds) →
        cls.getMethod m = some meth →
        meth.formalParams = formals →
        formals.length = args.length →
        meth.body = .variableValue [x] →
        instCall (n + 2) a m args heap out = .error (.rt ("unknown variable " ++ x))) := by
  have hlook := mkCallScope_lookup a formals args x hx1 hx2
  refine ⟨hlook, fun n cls flds m meth heap out hinst hfind hparams hlen hbody => ?_⟩
  have hhm : cls.hasMethod m args.length = true := by
    apply hasMethod_of_getMethod cls m meth args.length hfind
    rw [hparams, hlen]
  have hexec : execStmt (n + 1) (.variableValue [x]) (mkCallScope a formals args) heap out
      = .error (.rt ("unknown variable " ++ x)) := by
    simp [execStmt, hlook]
  simp only [instCall, hinst, hhm, if_true, hfind, hparams, hbody, hexec]

/-- Witness for C6: a body reading a caller-style local `y` fails with
"unknown variable y". -/
theorem c6_witness :
    instCall 2 0 ("m") []
      [Obj.inst (.mk ("C") [.mk ("m") [] (.variableValue [("y")])] none) []] []
      = .error (.rt ("unknown variable y")) := by
  have h := (c6_method_call_isolation 0 [] [] ("y") (by decide) (by simp)).2 0
    (.mk ("C") [.mk ("m") [] (.variableValue [("y")])] none) [] ("m")
    (.mk ("m") [] (.variableValue [("y")]))
    [Obj.inst (.mk ("C") [.mk ("m") [] (.variableValue [("y")])] none) []] []
    rfl rfl rfl rfl rfl
  simpa using h

/-! ## C7 — printing an instance -/

/-- A class whose `__str__` takes one formal parameter (arity 1). -/
def c7Cls : Cls := .mk ("B") [.mk ("__str__") [("y")] (.compound [])] none

/-- C7 counterexample: the claim says printing uses `__str__` regardless of
its arity, but `ClassInstance::Print` calls `Call("__str__", {})`, whose
arity check throws "method not found" when `__str__` takes a parameter. -/
theorem c7_instance_print_counterexample :
    objPrint 2 0 [Obj.inst c7Cls []] [] = .error (.rt ("method not found")) := rfl

/-- C7 (amended): printing an instance writes the result of calling
`__str__` when the class (or a parent) defines it and the zero-argument
call yields a `String`; with no `__str__` it writes an opaque identity
marker (the receiver's address); an `__str__` of non-zero arity makes the
print throw "method not found", and a call result that is not a `String`
is a null dereference (undefined behaviour). -/
theorem c7_instance_print_amended
    (n : Nat) (a : Addr) (heap : Heap) (out : Output) (cls : Cls) (flds : Closure)
    (hinst : heapGet heap a = some (.inst cls flds)) :
    (cls.getMethod ("__str__") = none →
      objPrint (n + 1) a heap out = .ok (heap, out, [.ptr a]))
    ∧ (∀ (heap1 : Heap) (out1 : Output) (va : Addr) (s : String),
        (cls.getMethod ("__str__")).isSome = true →
        instCall n a ("__str__") [] heap out = .ok (some va, heap1, out1) →
        heapGet heap1 va = some (.str s) →
        objPrint (n + 1) a heap out = .ok (heap1, out1, [.txt s]))
    ∧ (∀ meth, cls.getMethod ("__str__") = some meth →
        meth.formalParams.length ≠ 0 →
        objPrint (n + 2) a heap out = .error (.rt ("method not found")))
    ∧ (∀ (heap1 : Heap) (out1 : Output),
        (cls.getMethod ("__str__")).isSome = true →
        instCall n a ("__str__") [] heap out = .ok (none, heap1, out1) →
        objPrint (n + 1) a heap out = .error .ub) := by
  refine ⟨fun h => ?_, fun heap1 out1 va s hsome hcall hstr => ?_,
    fun meth h hne => ?_, fun heap1 out1 hsome hcall => ?_⟩
  · simp [objPrint, hinst, h]
  · simp [objPrint, hinst, hsome, hcall, hstr]
  · have hhm : cls.hasMethod ("__str__") 0 = false := by
      unfold Cls.hasMethod
      rw [h]
      simpa using hne
    have hcall : instCall (n + 1) a ("__str__") [] heap out
        = .error (.rt ("method not found")) := by
      simp [instCall, hinst, hhm]
    simp [objPrint, hinst, h, hcall]
  · simp [objPrint, hinst, hsome, hcall]

/-- Witness for C7 (amended): an instance of a class without `__str__`
prints as the opaque identity marker of its address. -/
theorem c7_witness :
    objPrint 1 0 [Obj.inst (.mk ("D") [] none) []] []
      = .ok ([Obj.inst (.mk ("D") [] none) []], [], [.ptr 0]) :=
  (c7_instance_print_amended 0 0 [Obj.inst (.mk ("D") [] none) []] []
    (.mk ("D") [] none) [] rfl).1 rfl

/-! ## C10 — dotted paths auto-insert missing instance fields -/

/-- C10: resolving a dotted `VariableValue` path walks `resolvePath`; when
an intermediate value is an instance whose field map lacks the next
segment, no error is raised: the field is inserted bound to an empty
handle and the walk continues with `None`; the "unknown field" error is
raised only when the intermediate value is not an instance. -/
theorem c10_missing_field_inserts_none :
    (∀ (n : Nat) (x : String) (ids : List String) (clo : Closure) (heap : Heap)
        (out : Output) (h : Handle),
        cloGet clo x = some h →
        execStmt (n + 1) (.variableValue (x :: ids)) clo heap out
          = (match resolvePath ids h heap with
             | .error e => .error e
             | .ok (v, heap1) => .ok (v, clo, heap1, out)))
    ∧ (∀ (f : String) (rest : List String) (a : Addr) (c : Cls) (flds : Closure)
        (heap : Heap),
        heapGet heap a = some (.inst c flds) →
        cloGet flds f = none →
        resolvePath (f :: rest) (some a) heap
          = resolvePath rest none (heapSet heap a (.inst c (flds ++ [(f, none)]))))
    ∧ (∀ heap : Heap, resolvePath [] (none : Handle) heap = .ok (none, heap))
    ∧ (∀ (f : String) (rest : List String) (heap : Heap),
        resolvePath (f :: rest) (none : Handle) heap = .error (.rt ("unknown field " ++ f)))
    ∧ (∀ (f : String) (rest : List String) (a : Addr) (heap : Heap) (o : Obj),
        heapGet heap a = some o →
        (match o with | .inst _ _ => False | _ => True) →
        resolvePath (f :: rest) (some a) heap = .error (.rt ("unknown field " ++ f))) := by
  refine ⟨fun n x ids clo heap out h hx => ?_,
    fun f rest a c flds heap hinst hmiss => ?_,
    fun heap => rfl,
    fun f rest heap => rfl,
    fun f rest a heap o ho hno => ?_⟩
  · simp [execStmt, hx]
  · simp [resolvePath, hinst, cloGetOrInsert_missing flds f hmiss]
  · cases o <;> simp_all [resolvePath]

/-- Witness for C10: reading a missing field `f` of an instance yields
`None` and inserts `f` (bound to an empty handle) into the field map. -/
theorem c10_witness :
    execStmt 1 (.variableValue [("v"), ("f")]) [(("v"), some 0)]
      [Obj.inst (.mk ("E") [] none) []] []
      = .ok (none, [(("v"), some 0)],
          [Obj.inst (.mk ("E") [] none) [(("f"), none)]], []) := by
  have h := c10_missing_field_inserts_none.1 0 ("v") [("f")] [(("v"), some 0)]
    [Obj.inst (.mk ("E") [] none) []] [] (some 0) rfl
  simpa using h

/-! ## Lexer (`lexer.cpp`)

The input stream is a list of characters; `get`/`peek`/`putback` become
head inspection and consing.  End of file is the empty list. -/

/-- `parse::LexerError` with its message. -/
structure LexErr where
  msg : String
deriving DecidableEq

/-- `parse::Token` (the `token_type` variants). -/
inductive Tok where
  | number (v : Int)
  | str (s : List Char)
  | id (s : List Char)
  | char (c : Char)
  | kwClass
  | kwReturn
  | kwIf
  | kwElse
  | kwDef
  | kwPrint
  | kwAnd
  | kwOr
  | kwNot
  | kwNone
  | kwTrue
  | kwFalse
  | eq
  | notEq
  | lessOrEq
  | greaterOrEq
  | newline
  | indent
  | dedent
  | eof
deriving DecidableEq

/-- `isdigit` over the C locale (ASCII). -/
def isDigitC (c : Char) : Bool :=
  ('0' ≤ c) && (c ≤ '9')

/-- `isalpha` over the C locale (ASCII). -/
def isAlphaC (c : Char) : Bool :=
  (('a' ≤ c) && (c ≤ 'z')) || (('A' ≤ c) && (c ≤ 'Z'))

/-- The identifier-continuation test of `Lexer::ParseName`. -/
def isIdentCont (c : Char) : Bool :=
  c == '_' || isDigitC c || isAlphaC c

/-- Modelled from the spec: `special_symbols` is defined in `lexer.h`, which
is not among the provided sources.  Section 6 of the specification lists the
single-character tokens as `+ - * / ( ) , . : =` plus `<` and `>` when not
followed by `=`; `=` is handled by an earlier branch of `NextToken`, so the
set holds the remaining punctuation together with `<` and `>`. -/
def specialSyms : List Char :=
  ['+', '-', '*', '/', '(', ')', ',', '.', ':', '<', '>']

def isSpecial (c : Char) : Bool :=
  specialSyms.contains c

/-- Modelled from the spec: `comparison_symbols` is defined in the missing
`lexer.h`; the spec's compare-starter class is `= ! < >`. -/
def comparisonSyms : List Char :=
  ['=', '!', '<', '>']

/-- `getline`: consume up to and including the next newline. -/
def dropLine : List Char → List Char
  | [] => []
  | c :: rest => if c = '\n' then rest else dropLine rest

/-- `Lexer::IgnoreSpaces`. -/
def dropSpaces : List Char → List Char
  | [] => []
  | c :: rest => if c = ' ' then dropSpaces rest else c :: rest

theorem dropLine_length_le (l : List Char) : (dropLine l).length ≤ l.length := by
  induction l with
  | nil => simp [dropLine]
  | cons c rest ih =>
    by_cases h : c = '\n'
    · simp [dropLine, h]
    · simp only [dropLine, if_neg h, List.length_cons]
      omega

/-- `Lexer::IgnoreEmptyRawsAndComments`, scanning character by character:
spaces increment the count of leading spaces on the current line, a newline
or a full-line comment restarts the count on the next line, and the first
other character (or end of input) triggers the parity check — an odd count
raises "invalid indent", an even one reports the count and the remaining
input. -/
def ignoreEmptyFrom (k : Nat) (inp : List Char) : Except LexErr (Nat × List Char) :=
  match inp with
  | [] => if k % 2 = 1 then .error ⟨"invalid indent"⟩ else .ok (k, [])
  | c :: rest =>
    if c = ' ' then ignoreEmptyFrom (k + 1) rest
    else if c = '\n' then ignoreEmptyFrom 0 rest
    else if c = '#' then ignoreEmptyFrom 0 (dropLine rest)
    else if k % 2 = 1 then .error ⟨"invalid indent"⟩
    else .ok (k, c :: rest)
termination_by inp.length
decreasing_by
  all_goals
    have := dropLine_length_le rest
    simp only [List.length_cons]
    omega

def ignoreEmpty (inp : List Char) : Except LexErr (Nat × List Char) :=
  ignoreEmptyFrom 0 inp

/-- `Lexer::IgnoreInitialComments` (run by the constructor): skip leading
spaces; while the next character is `#`, drop the line and repeat.  Note
that the leading spaces are consumed even when no comment follows. -/
def ignoreInitial : List Char → List Char
  | [] => []
  | c :: rest =>
    if c = ' ' then ignoreInitial rest
    else if c = '#' then ignoreInitial (dropLine rest)
    else c :: rest
termination_by inp => inp.length
decreasing_by
  all_goals
    have := dropLine_length_le rest
    simp only [List.length_cons]
    omega

/-- The identifier-collection loop of `Lexer::ParseName`. -/
def takeIdent : List Char → List Char × List Char
  | [] => ([], [])
  | c :: rest =>
    if isIdentCont c then
      let (nm, r) := takeIdent rest
      (c :: nm, r)
    else ([], c :: rest)

/-- The digit-collection loop of `Lexer::ParseNumber`. -/
def takeDigits : List Char → List Char × List Char
  | [] => ([], [])
  | c :: rest =>
    if isDigitC c then
      let (ds, r) := takeDigits rest
      (c :: ds, r)
    else ([], c :: rest)

/-- `stoi` on a digit run. -/
def digitsVal (ds : List Char) : Int :=
  ds.foldl (fun acc c => acc * 10 + ((c.toNat : Int) - ('0'.toNat : Int))) 0

/-- Modelled from the spec: `token_type::keyword_to_token` lives in the
missing `lexer.h`; section 6 lists the keywords
`class return if else def print and or not None True False`. -/
def keywordTok (s : List Char) : Option Tok :=
  if s = ("class").toList then some .kwClass
  else if s = ("return").toList then some .kwReturn
  else if s = ("if").toList then some .kwIf
  else if s = ("else").toList then some .kwElse
  else if s = ("def").toList then some .kwDef
  else if s = ("print").toList then some .kwPrint
  else if s = ("and").toList then some .kwAnd
  else if s = ("or").toList then some .kwOr
  else if s = ("not").toList then some .kwNot
  else if s = ("None").toList then some .kwNone
  else if s = ("True").toList then some .kwTrue
  else if s = ("False").toList then some .kwFalse
  else none

/-- `Lexer::ParseName`. -/
def parseName (inp : List Char) : Except LexErr (Tok × List Char) :=
  match inp with
  | [] => .error ⟨"invalid keyword or id"⟩
  | c :: _ =>
    if isAlphaC c || c == '_' then
      let (nm, rest) := takeIdent inp
      match keywordTok nm with
      | some t => .ok (t, rest)
      | none => .ok (.id nm, rest)
    else .error ⟨"invalid keyword or id"⟩

/-- `Lexer::ParseNumber`.  After the digit run the next character must be a
space, a newline, end of file, or a special symbol. -/
def parseNumber (inp : List Char) : Except LexErr (Tok × List Char) :=
  match inp with
  | [] => .error ⟨"expected number"⟩
  | c :: _ =>
    if isDigitC c then
      let (ds, rest) := takeDigits inp
      match rest with
      | [] => .ok (.number (digitsVal ds), [])
      | c2 :: _ =>
        if c2 == ' ' || c2 == '\n' || isSpecial c2 then .ok (.number (digitsVal ds), rest)
        else .error ⟨"expected space or new line or end of file or special symbol"⟩
    else .error ⟨"expected number"⟩

/-- The collection loop of `Lexer::ParseStringConstant`: consume until the
matching quote, translating `\n` and `\t` and passing other escaped
characters through; end of input before the closing quote is an error. -/
def parseStringBody (q : Char) : List Char → Except LexErr (List Char × List Char)
  | [] => .error ⟨"expected closing quote"⟩
  | c :: rest =>
    if c = q then .ok ([], rest)
    else if c = '\\' then
      match rest with
      | [] => .error ⟨"expected closing quote"⟩
      | e :: rest2 =>
        let ec := if e = 't' then '\t' else if e = 'n' then '\n' else e
        match parseStringBody q rest2 with
        | .error er => .error er
        | .ok (s, r) => .ok (ec :: s, r)
    else
      match parseStringBody q rest with
      | .error er => .error er
      | .ok (s, r) => .ok (c :: s, r)

/-- `Lexer::ParseStringConstant`. -/
def parseStringConstant (inp : List Char) : Except LexErr (Tok × List Char) :=
  match inp with
  | [] => .error ⟨"expected opening qoute"⟩
  | q :: rest =>
    if q = '\'' || q = '\"' then
      match parseStringBody q rest with
      | .error er => .error er
      | .ok (s, r) => .ok (.str s, r)
    else .error ⟨"expected opening qoute"⟩

/-- `Lexer::ParseComparisonOperand`: read two characters and classify. -/
def parseComparisonOperand (inp : List Char) : Except LexErr (Tok × List Char) :=
  match inp with
  | a :: b :: rest =>
    if a = '=' ∧ b = '=' then .ok (.eq, rest)
    else if a = '!' ∧ b = '=' then .ok (.notEq, rest)
    else if a = '<' ∧ b = '=' then .ok (.lessOrEq, rest)
    else if a = '>' ∧ b = '=' then .ok (.greaterOrEq, rest)
    else .error ⟨"expected comparison operand"⟩
  | _ => .error ⟨"expected comparison operand"⟩

/-- The lexer state: remaining input, `current_token_`, `current_indent_`
and `diff_current_prev_indent_`. -/
structure LexState where
  inp : List Char
  cur : Tok
  curIndent : Nat
  diff : Int
deriving DecidableEq

/-- The layout-resolution part of `IgnoreEmptyRawsAndComments`: skip blank
and comment lines, then set `current_indent_` to half the space count and
`diff_current_prev_indent_` to the indent delta. -/
def layoutResolve (st : LexState) : Except LexErr LexState :=
  match ignoreEmpty st.inp with
  | .error e => .error e
  | .ok (k, rest) =>
    .ok { st with inp := rest, curIndent := k / 2, diff := ((k / 2 : Nat) : Int) - (st.curIndent : Int) }

/-- `Lexer::NextToken`.  An `Eof` current token reproduces itself; a
`Newline` current token first runs layout resolution; a pending nonzero
indent delta is turned into one `Indent`/`Dedent` per call
(`ParseIndentOrDedent`); otherwise intra-line spaces are skipped and the
next character is dispatched exactly as in the source.  The fuel feeds the
single recursive call in the comment branch (unreachable, since layout
resolution never stops in front of `#`). -/
def nextTok : Nat → LexState → Except LexErr (Tok × LexState)
  | 0, _ => .error ⟨"fuel"⟩
  | n + 1, st =>
    if st.cur = .eof then .ok (.eof, st)
    else
      match (if st.cur = .newline then layoutResolve st else .ok st) with
      | .error e => .error e
      | .ok s1 =>
        if s1.diff > 0 then .ok (.indent, { s1 with cur := .indent, diff := s1.diff - 1 })
        else if s1.diff < 0 then .ok (.dedent, { s1 with cur := .dedent, diff := s1.diff + 1 })
        else
          match dropSpaces s1.inp with
          | [] =>
            if s1.cur = .newline ∨ s1.cur = .indent ∨ s1.cur = .dedent then
              .ok (.eof, { s1 with inp := [], cur := .eof })
            else .ok (.newline, { s1 with inp := [], cur := .newline })
          | c :: rest =>
            if isDigitC c then
              match parseNumber (c :: rest) with
              | .error e => .error e
              | .ok (t, r) => .ok (t, { s1 with inp := r, cur := t })
            else if c = '\'' ∨ c = '\"' then
              match parseStringConstant (c :: rest) with
              | .error e => .error e
              | .ok (t, r) => .ok (t, { s1 with inp := r, cur := t })
            else if c = '\n' then .ok (.newline, { s1 with inp := rest, cur := .newline })
            else if c = '#' then
              match ignoreEmpty (dropLine rest) with
              | .error e => .error e
              | .ok (k, r2) =>
                let s2 := { s1 with inp := r2, curIndent := k / 2, diff := ((k / 2 : Nat) : Int) - (s1.curIndent : Int) }
                if r2.head? = some '#' then nextTok n s2
                else if r2 = [] then .ok (.eof, { s2 with cur := .eof })
                else .ok (.newline, { s2 with cur := .newline })
            else if c = '=' ∧ rest.head? ≠ some '=' then
              .ok (.char '=', { s1 with inp := rest, cur := .char '=' })
            else if comparisonSyms.contains c ∧ rest.head? = some '=' then
              match parseComparisonOperand (c :: rest) with
              | .error e => .error e
              | .ok (t, r) => .ok (t, { s1 with inp := r, cur := t })
            else if isSpecial c then .ok (.char c, { s1 with inp := rest, cur := .char c })
            else if isAlphaC c ∨ c = '_' then
              match parseName (c :: rest) with
              | .error e => .error e
              | .ok (t, r) => .ok (t, { s1 with inp := r, cur := t })
            else .error ⟨"parsing error"⟩

/-- The token stream: iterate `NextToken` until the first `Eof`. -/
def lexAll : Nat → LexState → Except LexErr (List Tok)
  | 0, _ => .error ⟨"fuel"⟩
  | n + 1, st =>
    match nextTok n st with
    | .error e => .error e
    | .ok (t, st1) =>
      if t = .eof then .ok [.eof]
      else
        match lexAll n st1 with
        | .error e => .error e
        | .ok ts => .ok (t :: ts)

/-- The state right after `Lexer::Lexer` ran `IgnoreInitialComments` and
set `current_token_` to `Newline`, before producing the first token. -/
def initLexSt (inp : List Char) : LexState :=
  ⟨ignoreInitial inp, .newline, 0, 0⟩

/-- The lexer run from state `st` produces exactly the token stream `ts`
(for some fuel — the step function is fuel-irrelevant, see below). -/
def LexesFrom (st : LexState) (ts : List Tok) : Prop :=
  ∃ fuel, lexAll fuel st = .ok ts

/-- The lexer, constructed on `inp`, produces exactly the token stream
`ts` (the first element is `CurrentToken()` after construction). -/
def Lexes (inp : List Char) (ts : List Tok) : Prop :=
  LexesFrom (initLexSt inp) ts

/-! ## Lexer infrastructure lemmas -/

/-- Layout resolution never stops in front of a space, a newline, or a
comment character. -/
theorem ignoreEmptyFrom_ok_head (k : Nat) (inp : List Char) (m : Nat) (rest : List Char)
    (h : ignoreEmptyFrom k inp = .ok (m, rest)) :
    rest.head? ≠ some ' ' ∧ rest.head? ≠ some '\n' ∧ rest.head? ≠ some '#' := by
  induction k, inp using ignoreEmptyFrom.induct generalizing m rest with
  | case1 k hk =>
    rw [ignoreEmptyFrom, if_pos hk] at h
    exact absurd h (by simp)
  | case2 k hk =>
    rw [ignoreEmptyFrom, if_neg hk] at h
    obtain ⟨rfl, rfl⟩ : k = m ∧ rest = [] := by
      simpa [eq_comm] using h
    simp
  | case3 k r ih =>
    rw [ignoreEmptyFrom, if_pos rfl] at h
    exact ih m rest h
  | case4 k r h1 ih =>
    rw [ignoreEmptyFrom, if_neg (by decide), if_pos rfl] at h
    exact ih m rest h
  | case5 k r h1 h2 ih =>
    rw [ignoreEmptyFrom, if_neg (by decide), if_neg (by decide), if_pos rfl] at h
    exact ih m rest h
  | case6 k c r h1 h2 h3 hk =>
    rw [ignoreEmptyFrom, if_neg h1, if_neg h2, if_neg h3, if_pos hk] at h
    exact absurd h (by simp)
  | case7 k c r h1 h2 h3 hk =>
    rw [ignoreEmptyFrom, if_neg h1, if_neg h2, if_neg h3, if_neg hk] at h
    obtain ⟨rfl, rfl⟩ : k = m ∧ c :: r = rest := by
      simpa using h
    simp [h1, h2, h3]


/-- A single `NextToken` step does not depend on the fuel: the only
recursive occurrence sits behind a peek at `#` that layout resolution has
already ruled out. -/
theorem nextTok_succ (n m : Nat) (st : LexState) : nextTok (n + 1) st = nextTok (m + 1) st := by
  simp only [nextTok]
  by_cases h1 : st.cur = Tok.eof
  · simp [h1]
  · simp only [if_neg h1]
    cases hres : (if st.cur = Tok.newline then layoutResolve st else Except.ok st) with
    | error e => simp only [hres]
    | ok s1 =>
      simp only [hres]
      by_cases h2 : s1.diff > 0
      · simp [h2]
      · simp only [if_neg h2]
        by_cases h3 : s1.diff < 0
        · simp [h3]
        · simp only [if_neg h3]
          cases hds : dropSpaces s1.inp with
          | nil => simp only [hds]
          | cons c rest =>
            simp only [hds]
            by_cases h4 : isDigitC c = true
            · simp [h4]
            · simp only [if_neg h4]
              by_cases h5 : c = '\'' ∨ c = '\"'
              · simp [h5]
              · simp only [if_neg h5]
                by_cases h6 : c = '\n'
                · simp [h6]
                · simp only [if_neg h6]
                  by_cases h7 : c = '#'
                  · simp only [if_pos h7]
                    cases hie : ignoreEmpty (dropLine rest) with
                    | error e2 => simp only [hie]
                    | ok p =>
                      obtain ⟨k, r2⟩ := p
                      simp only [hie]
                      by_cases h8 : r2.head? = some '#'
                      · exact absurd h8 (ignoreEmptyFrom_ok_head 0 _ k r2 hie).2.2
                      · simp [h8]
                  · simp only [if_neg h7]
theorem lexAll_mono (f : Nat) (st : LexState) (ts : List Tok) (h : lexAll f st = .ok ts) :
    lexAll (f + 1) st = .ok ts := by
  induction f generalizing st ts with
  | zero => simp [lexAll] at h
  | succ g ih =>
    cases g with
    | zero => simp [lexAll, nextTok] at h
    | succ g' =>
      rw [lexAll] at h
      rw [lexAll, nextTok_succ (g' + 1) g' st]
      cases hnt : nextTok (g' + 1) st with
      | error e =>
        rw [hnt] at h
        exact absurd h (by simp)
      | ok p =>
        obtain ⟨t, st1⟩ := p
        rw [hnt] at h
        simp only [hnt]
        by_cases ht : t = Tok.eof
        · simp only [if_pos ht] at h ⊢
          exact h
        · simp only [if_neg ht] at h ⊢
          cases hla : lexAll (g' + 1) st1 with
          | error e =>
            rw [hla] at h
            exact absurd h (by simp)
          | ok ts' =>
            rw [hla] at h
            rw [ih st1 ts' hla]
            exact h

theorem lexesFrom_eof (st st' : LexState) (h : nextTok 1 st = .ok (.eof, st')) :
    LexesFrom st [.eof] :=
  ⟨2, by rw [lexAll, h]; simp⟩

theorem lexesFrom_cons (st : LexState) (t : Tok) (st' : LexState) (ts : List Tok)
    (h : nextTok 1 st = .ok (t, st')) (hne : t ≠ .eof) (hrest : LexesFrom st' ts) :
    LexesFrom st (t :: ts) := by
  obtain ⟨f, hf⟩ := hrest
  refine ⟨f + 1, ?_⟩
  cases f with
  | zero => simp [lexAll] at hf
  | succ f' =>
    rw [lexAll, nextTok_succ f' 0 st, h]
    simp only [if_neg hne, hf]

theorem nextTok_congr_newline (f : Nat) (inp1 inp2 : List Char) (prev : Nat) (d : Int)
    (h : ignoreEmpty inp1 = ignoreEmpty inp2) :
    nextTok f ⟨inp1, Tok.newline, prev, d⟩ = nextTok f ⟨inp2, Tok.newline, prev, d⟩ := by
  cases f with
  | zero => rfl
  | succ g =>
    have hl : layoutResolve ⟨inp1, Tok.newline, prev, d⟩
        = layoutResolve ⟨inp2, Tok.newline, prev, d⟩ := by
      simp only [layoutResolve]
      rw [h]
    simp only [nextTok, hl]
    simp

theorem lexAll_congr_newline (f : Nat) (inp1 inp2 : List Char) (prev : Nat) (d : Int)
    (h : ignoreEmpty inp1 = ignoreEmpty inp2) :
    lexAll f ⟨inp1, Tok.newline, prev, d⟩ = lexAll f ⟨inp2, Tok.newline, prev, d⟩ := by
  cases f with
  | zero => rfl
  | succ g => rw [lexAll, lexAll, nextTok_congr_newline g inp1 inp2 prev d h]

theorem lexesFrom_congr_newline (inp1 inp2 : List Char) (prev : Nat) (d : Int) (ts : List Tok)
    (h : ignoreEmpty inp1 = ignoreEmpty inp2)
    (hl : LexesFrom ⟨inp2, Tok.newline, prev, d⟩ ts) :
    LexesFrom ⟨inp1, Tok.newline, prev, d⟩ ts := by
  obtain ⟨f, hf⟩ := hl
  exact ⟨f, by rw [lexAll_congr_newline f inp1 inp2 prev d h]; exact hf⟩

def spacesN (k : Nat) : List Char := List.replicate k ' '

theorem ignoreEmptyFrom_spaces (j k : Nat) (l : List Char) :
    ignoreEmptyFrom k (spacesN j ++ l) = ignoreEmptyFrom (k + j) l := by
  induction j generalizing k with
  | zero => simp [spacesN]
  | succ j ih =>
    rw [show spacesN (j + 1) = ' ' :: spacesN j from by simp [spacesN, List.replicate_succ]]
    rw [List.cons_append, ignoreEmptyFrom, if_pos rfl, ih (k + 1)]
    congr 1
    omega

theorem ignoreEmptyFrom_stop (k : Nat) (c : Char) (l : List Char)
    (h1 : c ≠ ' ') (h2 : c ≠ '\n') (h3 : c ≠ '#') :
    ignoreEmptyFrom k (c :: l)
      = if k % 2 = 1 then .error ⟨"invalid indent"⟩ else .ok (k, c :: l) := by
  rw [ignoreEmptyFrom, if_neg h1, if_neg h2, if_neg h3]

theorem dropLine_append (txt rest : List Char) (h : '\n' ∉ txt) :
    dropLine (txt ++ '\n' :: rest) = rest := by
  induction txt with
  | nil => simp [dropLine]
  | cons c t ih =>
    simp only [List.mem_cons, not_or] at h
    rw [List.cons_append, dropLine, if_neg (fun hc => h.1 hc.symm)]
    exact ih h.2

theorem dropSpaces_cons_of_ne (c : Char) (l : List Char) (h : c ≠ ' ') :
    dropSpaces (c :: l) = c :: l := by
  rw [dropSpaces, if_neg h]

def lowerAlpha : List Char := ("abcdefghijklmnopqrstuvwxyz").toList

theorem lowerAlpha_props : ∀ c ∈ lowerAlpha,
    isAlphaC c = true ∧ isDigitC c = false ∧ isIdentCont c = true ∧ isSpecial c = false ∧
    comparisonSyms.contains c = false ∧ c ≠ ' ' ∧ c ≠ '\n' ∧ c ≠ '#' ∧ c ≠ '\'' ∧
    c ≠ '\"' ∧ c ≠ '=' := by decide

theorem takeIdent_append (nm : List Char) (x : Char) (tail : List Char)
    (hnm : ∀ c ∈ nm, isIdentCont c = true) (hx : isIdentCont x = false) :
    takeIdent (nm ++ x :: tail) = (nm, x :: tail) := by
  induction nm with
  | nil => simp [takeIdent, hx]
  | cons c nm' ih =>
    have hc := hnm c (by simp)
    rw [List.cons_append, takeIdent]
    simp only [hc, if_pos]
    rw [ih (fun d hd => hnm d (by simp [hd]))]

theorem parseName_ident (nm : List Char) (x : Char) (tail : List Char)
    (h0 : nm ≠ []) (hall : ∀ c ∈ nm, c ∈ lowerAlpha) (hkw : keywordTok nm = none)
    (hx : isIdentCont x = false) :
    parseName (nm ++ x :: tail) = .ok (.id nm, x :: tail) := by
  cases nm with
  | nil => exact absurd rfl h0
  | cons c nm' =>
    have hc := lowerAlpha_props c (hall c (by simp))
    rw [List.cons_append, parseName]
    simp only [hc.1, Bool.true_or, if_pos]
    rw [show (c :: (nm' ++ x :: tail)) = ((c :: nm') ++ x :: tail) from rfl]
    rw [takeIdent_append (c :: nm') x tail
      (fun d hd => (lowerAlpha_props d (hall d hd)).2.2.1) hx]
    rw [hkw]


theorem nextTok_step_indent (st s1 : LexState)
    (hcur : st.cur ≠ Tok.eof)
    (hstep : (if st.cur = Tok.newline then layoutResolve st else .ok st) = .ok s1)
    (hd : 0 < s1.diff) :
    nextTok 1 st = .ok (.indent, { s1 with cur := .indent, diff := s1.diff - 1 }) := by
  show nextTok (0 + 1) st = _
  rw [nextTok, if_neg hcur, hstep]
  dsimp only
  rw [if_pos hd]

theorem nextTok_step_dedent (st s1 : LexState)
    (hcur : st.cur ≠ Tok.eof)
    (hstep : (if st.cur = Tok.newline then layoutResolve st else .ok st) = .ok s1)
    (hd : s1.diff < 0) :
    nextTok 1 st = .ok (.dedent, { s1 with cur := .dedent, diff := s1.diff + 1 }) := by
  show nextTok (0 + 1) st = _
  rw [nextTok, if_neg hcur, hstep]
  dsimp only
  have hd2 : ¬s1.diff > 0 := by omega
  rw [if_neg hd2, if_pos hd]

theorem nextTok_step_eof (st s1 : LexState)
    (hcur : st.cur ≠ Tok.eof)
    (hstep : (if st.cur = Tok.newline then layoutResolve st else .ok st) = .ok s1)
    (hd : s1.diff = 0) (hinp : s1.inp = [])
    (hcur3 : s1.cur = Tok.newline ∨ s1.cur = Tok.indent ∨ s1.cur = Tok.dedent) :
    nextTok 1 st = .ok (.eof, { s1 with inp := [], cur := .eof }) := by
  show nextTok (0 + 1) st = _
  rw [nextTok, if_neg hcur, hstep]
  dsimp only
  have hd2 : ¬s1.diff > 0 := by omega
  have hd3 : ¬s1.diff < 0 := by omega
  rw [if_neg hd2, if_neg hd3, hinp]
  rw [show dropSpaces [] = [] from rfl]
  rw [if_pos hcur3]

theorem nextTok_step_newline (st s1 : LexState) (tail : List Char)
    (hcur : st.cur ≠ Tok.eof)
    (hstep : (if st.cur = Tok.newline then layoutResolve st else .ok st) = .ok s1)
    (hd : s1.diff = 0) (hinp : s1.inp = '\n' :: tail) :
    nextTok 1 st = .ok (.newline, { s1 with inp := tail, cur := .newline }) := by
  show nextTok (0 + 1) st = _
  rw [nextTok, if_neg hcur, hstep]
  dsimp only
  have hd2 : ¬s1.diff > 0 := by omega
  have hd3 : ¬s1.diff < 0 := by omega
  rw [if_neg hd2, if_neg hd3, hinp, dropSpaces_cons_of_ne _ _ (by decide)]
  simp only [show isDigitC '\n' = false from rfl, Bool.false_eq_true, if_false]
  rw [if_neg (by decide : ¬('\n' = '\'' ∨ '\n' = '\"'))]
  simp

theorem nextTok_step_ident (st s1 : LexState) (nm : List Char) (tail : List Char)
    (hcur : st.cur ≠ Tok.eof)
    (hstep : (if st.cur = Tok.newline then layoutResolve st else .ok st) = .ok s1)
    (hd : s1.diff = 0) (hinp : s1.inp = nm ++ '\n' :: tail)
    (h0 : nm ≠ []) (hall : ∀ c ∈ nm, c ∈ lowerAlpha) (hkw : keywordTok nm = none) :
    nextTok 1 st = .ok (.id nm, { s1 with inp := '\n' :: tail, cur := .id nm }) := by
  cases nm with
  | nil => exact absurd rfl h0
  | cons c nm' =>
    have hc := lowerAlpha_props c (hall c (by simp))
    show nextTok (0 + 1) st = _
    rw [nextTok, if_neg hcur, hstep]
    dsimp only
    have hd2 : ¬s1.diff > 0 := by omega
    have hd3 : ¬s1.diff < 0 := by omega
    rw [if_neg hd2, if_neg hd3, hinp, List.cons_append,
      dropSpaces_cons_of_ne _ _ hc.2.2.2.2.2.1]
    simp only [hc.2.1, Bool.false_eq_true, if_false]
    rw [if_neg (show ¬(c = '\'' ∨ c = '\"') from by
      rcases hc with ⟨_, _, _, _, _, _, _, _, hq1, hq2, _⟩
      exact fun h => h.elim hq1 hq2)]
    rw [if_neg hc.2.2.2.2.2.2.1, if_neg hc.2.2.2.2.2.2.2.1]
    rw [if_neg (show ¬(c = '=' ∧ (nm' ++ '\n' :: tail).head? ≠ some '=') from
      fun h => hc.2.2.2.2.2.2.2.2.2.2 h.1)]
    rw [if_neg (show ¬(comparisonSyms.contains c = true ∧ (nm' ++ '\n' :: tail).head? = some '=') from by
      rw [hc.2.2.2.2.1]
      simp)]
    simp only [hc.2.2.2.1, Bool.false_eq_true, if_false]
    rw [if_pos (Or.inl hc.1)]
    rw [show (c :: (nm' ++ '\n' :: tail)) = ((c :: nm') ++ '\n' :: tail) from rfl]
    rw [parseName_ident (c :: nm') '\n' tail h0 hall hkw (by decide)]


/-! ## C2 — layout token synthesis -/

/-- An abstract input line: blank (spaces then newline), a full-line
comment, or a statement consisting of one lowercase identifier at a given
indent level (in units of two spaces). -/
inductive SrcLine where
  | blank (k : Nat)
  | comment (k : Nat) (txt : List Char)
  | stmt (level : Nat) (name : List Char)
deriving DecidableEq

def lineChars : SrcLine → List Char
  | .blank k => spacesN k ++ ['\n']
  | .comment k txt => spacesN k ++ '#' :: (txt ++ ['\n'])
  | .stmt l nm => spacesN (2 * l) ++ (nm ++ ['\n'])

def srcChars : List SrcLine → List Char
  | [] => []
  | l :: ls => lineChars l ++ srcChars ls

/-- Line well-formedness: a comment holds no newline; a statement name is a
nonempty lowercase identifier that is not a keyword. -/
def goodLineB : SrcLine → Bool
  | .blank _ => true
  | .comment _ txt => decide ('\n' ∉ txt)
  | .stmt _ nm => decide (nm ≠ [] ∧ (∀ c ∈ nm, c ∈ lowerAlpha) ∧ keywordTok nm = none)

/-- The first statement line of the file sits at indent level 0. -/
def firstStmt0B : List SrcLine → Bool
  | [] => true
  | .stmt l _ :: _ => l == 0
  | _ :: rest => firstStmt0B rest

/-- The layout tokens of one line boundary: one `Indent` per positive unit
of the indent delta, one `Dedent` per negative unit. -/
def layoutToks (prev next : Nat) : List Tok :=
  if prev ≤ next then List.replicate (next - prev) Tok.indent
  else List.replicate (prev - next) Tok.dedent

/-- The expected token stream from a previous indent level: blank and
comment lines contribute nothing; each statement contributes its layout
delta, its identifier and one `Newline`; the end of input contributes the
closing `Dedent`s and `Eof`. -/
def expToks (prev : Nat) : List SrcLine → List Tok
  | [] => List.replicate prev Tok.dedent ++ [Tok.eof]
  | .blank _ :: rest => expToks prev rest
  | .comment _ _ :: rest => expToks prev rest
  | .stmt l nm :: rest => layoutToks prev l ++ Tok.id nm :: Tok.newline :: expToks l rest

theorem ignoreEmptyFrom_junk_line (k : Nat) (j : SrcLine) (tail : List Char)
    (hgood : goodLineB j = true) (hjunk : ∀ l nm, j ≠ .stmt l nm) :
    ignoreEmptyFrom k (lineChars j ++ tail) = ignoreEmptyFrom 0 tail := by
  cases j with
  | blank k' =>
    rw [show lineChars (.blank k') ++ tail = spacesN k' ++ ('\n' :: tail) from by
      simp [lineChars]]
    rw [ignoreEmptyFrom_spaces, ignoreEmptyFrom, if_neg (by decide), if_pos rfl]
  | comment k' txt =>
    simp only [goodLineB] at hgood
    have hnl : '\n' ∉ txt := of_decide_eq_true hgood
    rw [show lineChars (.comment k' txt) ++ tail
        = spacesN k' ++ ('#' :: (txt ++ '\n' :: tail)) from by simp [lineChars]]
    rw [ignoreEmptyFrom_spaces, ignoreEmptyFrom, if_neg (by decide), if_neg (by decide),
      if_pos rfl, dropLine_append txt tail hnl]
  | stmt l nm => exact absurd rfl (hjunk l nm)

theorem layoutResolve_stmt (l prev : Nat) (d : Int) (nm tail : List Char)
    (h0 : nm ≠ []) (hall : ∀ c ∈ nm, c ∈ lowerAlpha) :
    layoutResolve ⟨spacesN (2 * l) ++ (nm ++ '\n' :: tail), Tok.newline, prev, d⟩
      = .ok ⟨nm ++ '\n' :: tail, Tok.newline, l, (l : Int) - (prev : Int)⟩ := by
  cases nm with
  | nil => exact absurd rfl h0
  | cons c nm' =>
    have hc := lowerAlpha_props c (hall c (by simp))
    simp only [layoutResolve, ignoreEmpty]
    rw [show ((c :: nm') ++ '\n' :: tail) = (c :: (nm' ++ '\n' :: tail)) from rfl]
    rw [ignoreEmptyFrom_spaces,
      ignoreEmptyFrom_stop _ _ _ hc.2.2.2.2.2.1 hc.2.2.2.2.2.2.1 hc.2.2.2.2.2.2.2.1]
    rw [if_neg (show ¬(0 + 2 * l) % 2 = 1 from by omega)]
    dsimp only
    have h2 : (0 + 2 * l) / 2 = l := by omega
    rw [h2]


theorem lexesFrom_indents (j : Nat) : ∀ (st : LexState) (ts : List Tok),
    st.cur = Tok.indent → st.diff = (j : Int) →
    LexesFrom { st with diff := 0 } ts →
    LexesFrom st (List.replicate j Tok.indent ++ ts) := by
  induction j with
  | zero =>
    intro st ts hcur hd hcont
    have hst : ({ st with diff := 0 } : LexState) = st := by
      cases st
      simp_all
    rw [List.replicate_zero, List.nil_append]
    rwa [hst] at hcont
  | succ j ih =>
    intro st ts hcur hd hcont
    have hne : st.cur ≠ Tok.eof := by
      rw [hcur]
      decide
    have hnn : ¬st.cur = Tok.newline := by
      rw [hcur]
      decide
    have hstep := nextTok_step_indent st st hne (by rw [if_neg hnn]) (by rw [hd]; omega)
    have hst' : ({ st with cur := Tok.indent, diff := st.diff - 1 } : LexState)
        = { st with diff := (j : Int) } := by
      cases st
      simp_all
    rw [List.replicate_succ, List.cons_append]
    apply lexesFrom_cons st Tok.indent _ _ hstep (by decide)
    rw [hst']
    apply ih { st with diff := (j : Int) } ts
    · simpa using hcur
    · simp
    · have : ({ { st with diff := (j : Int) } with diff := 0 } : LexState)
          = { st with diff := 0 } := by
        cases st
        simp
      rwa [this]

theorem lexesFrom_dedents (j : Nat) : ∀ (st : LexState) (ts : List Tok),
    st.cur = Tok.dedent → st.diff = -(j : Int) →
    LexesFrom { st with diff := 0 } ts →
    LexesFrom st (List.replicate j Tok.dedent ++ ts) := by
  induction j with
  | zero =>
    intro st ts hcur hd hcont
    have hst : ({ st with diff := 0 } : LexState) = st := by
      cases st
      simp_all
    rw [List.replicate_zero, List.nil_append]
    rwa [hst] at hcont
  | succ j ih =>
    intro st ts hcur hd hcont
    have hne : st.cur ≠ Tok.eof := by
      rw [hcur]
      decide
    have hnn : ¬st.cur = Tok.newline := by
      rw [hcur]
      decide
    have hstep := nextTok_step_dedent st st hne (by rw [if_neg hnn])
      (by rw [hd]; omega)
    have hst' : ({ st with cur := Tok.dedent, diff := st.diff + 1 } : LexState)
        = { st with diff := -(j : Int) } := by
      cases st
      simp_all
    rw [List.replicate_succ, List.cons_append]
    apply lexesFrom_cons st Tok.dedent _ _ hstep (by decide)
    rw [hst']
    apply ih { st with diff := -(j : Int) } ts
    · simpa using hcur
    · simp
    · have : ({ { st with diff := -(j : Int) } with diff := 0 } : LexState)
          = { st with diff := 0 } := by
        cases st
        simp
      rwa [this]

theorem lexesFrom_stmt_chain (st s1 : LexState) (nm tail : List Char) (ts : List Tok)
    (hcur : st.cur ≠ Tok.eof)
    (hstep : (if st.cur = Tok.newline then layoutResolve st else .ok st) = .ok s1)
    (hd : s1.diff = 0) (hinp : s1.inp = nm ++ '\n' :: tail)
    (h0 : nm ≠ []) (hall : ∀ c ∈ nm, c ∈ lowerAlpha) (hkw : keywordTok nm = none)
    (hrest : LexesFrom ⟨tail, Tok.newline, s1.curIndent, 0⟩ ts) :
    LexesFrom st (Tok.id nm :: Tok.newline :: ts) := by
  have hstep1 := nextTok_step_ident st s1 nm tail hcur hstep hd hinp h0 hall hkw
  apply lexesFrom_cons st (Tok.id nm) _ _ hstep1 (by simp)
  have hstep2 := nextTok_step_newline { s1 with inp := '\n' :: tail, cur := Tok.id nm }
    { s1 with inp := '\n' :: tail, cur := Tok.id nm } tail
    (by simp) (by rw [if_neg (by simp)]) (by simpa using hd) (by simp)
  apply lexesFrom_cons _ Tok.newline _ _ hstep2 (by decide)
  have heq : ({ { s1 with inp := '\n' :: tail, cur := Tok.id nm } with
      inp := tail, cur := Tok.newline } : LexState)
      = ⟨tail, Tok.newline, s1.curIndent, 0⟩ := by
    cases s1
    simp_all
  rwa [heq]

theorem lexesFrom_end (prev : Nat) :
    LexesFrom ⟨[], Tok.newline, prev, 0⟩ (List.replicate prev Tok.dedent ++ [Tok.eof]) := by
  have hlay : layoutResolve ⟨[], Tok.newline, prev, 0⟩
      = .ok ⟨[], Tok.newline, 0, (0 : Int) - (prev : Int)⟩ := by
    simp only [layoutResolve, ignoreEmpty]
    rw [ignoreEmptyFrom, if_neg (by decide)]
    dsimp only
    norm_num
  have hstep0 : (if (⟨[], Tok.newline, prev, 0⟩ : LexState).cur = Tok.newline
      then layoutResolve ⟨[], Tok.newline, prev, 0⟩ else .ok ⟨[], Tok.newline, prev, 0⟩)
      = .ok ⟨[], Tok.newline, 0, (0 : Int) - (prev : Int)⟩ := by
    rw [if_pos rfl]
    exact hlay
  cases prev with
  | zero =>
    exact lexesFrom_eof ⟨[], Tok.newline, 0, 0⟩ ⟨[], Tok.eof, 0, 0⟩
      (nextTok_step_eof ⟨[], Tok.newline, 0, 0⟩ ⟨[], Tok.newline, 0, 0⟩ (by decide)
        (by simpa using hstep0) rfl rfl (Or.inl rfl))
  | succ p =>
    have hstep1 := nextTok_step_dedent ⟨[], Tok.newline, p + 1, 0⟩
      ⟨[], Tok.newline, 0, (0 : Int) - ((p + 1 : Nat) : Int)⟩ (by simp) hstep0
      (by push_cast; omega)
    rw [List.replicate_succ, List.cons_append]
    apply lexesFrom_cons _ Tok.dedent _ _ hstep1 (by decide)
    have hst' : ({ (⟨[], Tok.newline, 0, (0 : Int) - ((p + 1 : Nat) : Int)⟩ : LexState) with
        cur := Tok.dedent, diff := (0 : Int) - ((p + 1 : Nat) : Int) + 1 } : LexState)
        = ⟨[], Tok.dedent, 0, -(p : Int)⟩ := by
      simp
    rw [hst']
    apply lexesFrom_dedents p ⟨[], Tok.dedent, 0, -(p : Int)⟩ [Tok.eof] rfl rfl
    show LexesFrom ⟨[], Tok.dedent, 0, 0⟩ [Tok.eof]
    exact lexesFrom_eof ⟨[], Tok.dedent, 0, 0⟩ ⟨[], Tok.eof, 0, 0⟩
      (nextTok_step_eof ⟨[], Tok.dedent, 0, 0⟩ ⟨[], Tok.dedent, 0, 0⟩ (by decide)
        (by rw [if_neg (by decide)]) rfl rfl (Or.inr (Or.inr rfl)))


theorem lexesFrom_lines (ls : List SrcLine) : ∀ (prev : Nat),
    (∀ l ∈ ls, goodLineB l = true) →
    LexesFrom ⟨srcChars ls, Tok.newline, prev, 0⟩ (expToks prev ls) := by
  induction ls with
  | nil =>
    intro prev _
    exact lexesFrom_end prev
  | cons ln rest ih =>
    intro prev hg
    have hgrest : ∀ l ∈ rest, goodLineB l = true := fun l hl => hg l (by simp [hl])
    cases ln with
    | blank k =>
      apply lexesFrom_congr_newline _ (srcChars rest) prev 0 _
        (ignoreEmptyFrom_junk_line 0 (.blank k) _ rfl (fun l nm h => by cases h))
      exact ih prev hgrest
    | comment k txt =>
      apply lexesFrom_congr_newline _ (srcChars rest) prev 0 _
        (ignoreEmptyFrom_junk_line 0 (.comment k txt) _ (hg _ (by simp)) (fun l nm h => by cases h))
      exact ih prev hgrest
    | stmt l nm =>
      have hgood : goodLineB (.stmt l nm) = true := hg _ (by simp)
      simp only [goodLineB] at hgood
      obtain ⟨h0, hall, hkw⟩ := of_decide_eq_true hgood
      have hsrc : srcChars (.stmt l nm :: rest)
          = spacesN (2 * l) ++ (nm ++ '\n' :: srcChars rest) := by
        simp [srcChars, lineChars, List.append_assoc]
      have hlay : layoutResolve ⟨srcChars (.stmt l nm :: rest), Tok.newline, prev, 0⟩
          = .ok ⟨nm ++ '\n' :: srcChars rest, Tok.newline, l, (l : Int) - (prev : Int)⟩ := by
        rw [show (⟨srcChars (.stmt l nm :: rest), Tok.newline, prev, 0⟩ : LexState)
          = ⟨spacesN (2 * l) ++ (nm ++ '\n' :: srcChars rest), Tok.newline, prev, 0⟩ from by
            rw [hsrc]]
        exact layoutResolve_stmt l prev 0 nm (srcChars rest) h0 hall
      have hstep0 : (if (⟨srcChars (.stmt l nm :: rest), Tok.newline, prev, 0⟩ : LexState).cur
            = Tok.newline
          then layoutResolve ⟨srcChars (.stmt l nm :: rest), Tok.newline, prev, 0⟩
          else .ok ⟨srcChars (.stmt l nm :: rest), Tok.newline, prev, 0⟩)
          = .ok ⟨nm ++ '\n' :: srcChars rest, Tok.newline, l, (l : Int) - (prev : Int)⟩ := by
        rw [if_pos rfl]
        exact hlay
      have hrest := ih l hgrest
      show LexesFrom ⟨srcChars (.stmt l nm :: rest), Tok.newline, prev, 0⟩
        (layoutToks prev l ++ Tok.id nm :: Tok.newline :: expToks l rest)
      rcases Nat.lt_trichotomy prev l with hlt | heq | hgt
      · -- strictly deeper: emit Indents
        rw [show layoutToks prev l = List.replicate (l - prev) Tok.indent from by
          rw [layoutToks, if_pos (Nat.le_of_lt hlt)]]
        obtain ⟨d, hd⟩ : ∃ d, l - prev = d + 1 := ⟨l - prev - 1, by omega⟩
        rw [hd, List.replicate_succ, List.cons_append]
        have hstep1 := nextTok_step_indent
          ⟨srcChars (.stmt l nm :: rest), Tok.newline, prev, 0⟩
          ⟨nm ++ '\n' :: srcChars rest, Tok.newline, l, (l : Int) - (prev : Int)⟩
          (by simp) hstep0 (by simp; omega)
        apply lexesFrom_cons _ Tok.indent _ _ hstep1 (by decide)
        have hst' : ({ (⟨nm ++ '\n' :: srcChars rest, Tok.newline, l,
            (l : Int) - (prev : Int)⟩ : LexState) with
            cur := Tok.indent, diff := (l : Int) - (prev : Int) - 1 } : LexState)
            = ⟨nm ++ '\n' :: srcChars rest, Tok.indent, l, (d : Int)⟩ := by
          simp
          omega
        rw [hst']
        apply lexesFrom_indents d _ _ rfl rfl
        show LexesFrom ⟨nm ++ '\n' :: srcChars rest, Tok.indent, l, 0⟩ _
        exact lexesFrom_stmt_chain _ ⟨nm ++ '\n' :: srcChars rest, Tok.indent, l, 0⟩
          nm (srcChars rest) _ (by simp) (by rw [if_neg (by simp)]) rfl rfl h0 hall hkw hrest
      · -- equal levels: no layout tokens
        subst heq
        rw [show layoutToks prev prev = ([] : List Tok) from by
          rw [layoutToks, if_pos (le_refl prev)]
          simp]
        rw [List.nil_append]
        apply lexesFrom_stmt_chain _
          ⟨nm ++ '\n' :: srcChars rest, Tok.newline, prev, (prev : Int) - (prev : Int)⟩
          nm (srcChars rest) _ (by simp) hstep0 (by simp) rfl h0 hall hkw hrest
      · -- strictly shallower: emit Dedents
        rw [show layoutToks prev l = List.replicate (prev - l) Tok.dedent from by
          rw [layoutToks, if_neg (by omega)]]
        obtain ⟨d, hd⟩ : ∃ d, prev - l = d + 1 := ⟨prev - l - 1, by omega⟩
        rw [hd, List.replicate_succ, List.cons_append]
        have hstep1 := nextTok_step_dedent
          ⟨srcChars (.stmt l nm :: rest), Tok.newline, prev, 0⟩
          ⟨nm ++ '\n' :: srcChars rest, Tok.newline, l, (l : Int) - (prev : Int)⟩
          (by simp) hstep0 (by simp; omega)
        apply lexesFrom_cons _ Tok.dedent _ _ hstep1 (by decide)
        have hst' : ({ (⟨nm ++ '\n' :: srcChars rest, Tok.newline, l,
            (l : Int) - (prev : Int)⟩ : LexState) with
            cur := Tok.dedent, diff := (l : Int) - (prev : Int) + 1 } : LexState)
            = ⟨nm ++ '\n' :: srcChars rest, Tok.dedent, l, -(d : Int)⟩ := by
          simp
          omega
        rw [hst']
        apply lexesFrom_dedents d _ _ rfl rfl
        show LexesFrom ⟨nm ++ '\n' :: srcChars rest, Tok.dedent, l, 0⟩ _
        exact lexesFrom_stmt_chain _ ⟨nm ++ '\n' :: srcChars rest, Tok.dedent, l, 0⟩
          nm (srcChars rest) _ (by simp) (by rw [if_neg (by simp)]) rfl rfl h0 hall hkw hrest


theorem ignoreInitial_spaces (j : Nat) (l : List Char) :
    ignoreInitial (spacesN j ++ l) = ignoreInitial l := by
  induction j with
  | zero => simp [spacesN]
  | succ j ih =>
    rw [show spacesN (j + 1) = ' ' :: spacesN j from by simp [spacesN, List.replicate_succ]]
    rw [List.cons_append, ignoreInitial, if_pos rfl]
    exact ih

theorem ignoreInitial_stop (c : Char) (l : List Char) (h1 : c ≠ ' ') (h2 : c ≠ '#') :
    ignoreInitial (c :: l) = c :: l := by
  rw [ignoreInitial, if_neg h1, if_neg h2]

theorem lexAll_mono_add (f k : Nat) (st : LexState) (ts : List Tok)
    (h : lexAll f st = .ok ts) : lexAll (f + k) st = .ok ts := by
  induction k with
  | zero => exact h
  | succ k ih => exact lexAll_mono (f + k) st ts ih

/-- The token stream of a lexer state is unique: `Lexes`/`LexesFrom`
describe a function of the input. -/
theorem lexesFrom_unique (st : LexState) (ts1 ts2 : List Tok)
    (h1 : LexesFrom st ts1) (h2 : LexesFrom st ts2) : ts1 = ts2 := by
  obtain ⟨f1, hf1⟩ := h1
  obtain ⟨f2, hf2⟩ := h2
  have e1 := lexAll_mono_add f1 f2 st ts1 hf1
  have e2 := lexAll_mono_add f2 f1 st ts2 hf2
  rw [Nat.add_comm f2 f1] at e2
  rw [e1] at e2
  exact Except.ok.inj e2

/-- C2: for every well-formed input whose successive statement lines have
indent levels `l0 = 0, l1, l2, …`, the token stream carries, at each line
boundary, exactly the indent delta as `Indent`/`Dedent` tokens (`layoutToks`
is `(l_next − l_prev)` `Indent`s when positive, the negation as `Dedent`s
when negative, and empty when zero), and blank or comment-only lines
between statements contribute nothing to the stream beyond the single
`Newline` that terminates each statement (`expToks` skips them). -/
theorem c2_layout_token_stream (ls : List SrcLine)
    (hg : ls.all goodLineB = true) (h0 : firstStmt0B ls = true) :
    Lexes (srcChars ls) (expToks 0 ls) := by
  unfold Lexes initLexSt
  induction ls with
  | nil =>
    have h1 : ignoreInitial (srcChars ([] : List SrcLine)) = [] := by
      rw [show srcChars ([] : List SrcLine) = [] from rfl, ignoreInitial]
    rw [h1]
    exact lexesFrom_lines [] 0 (by simp)
  | cons ln rest ih =>
    have hgrest : rest.all goodLineB = true := by
      simp only [List.all_cons, Bool.and_eq_true] at hg
      exact hg.2
    have hgrest' : ∀ l ∈ rest, goodLineB l = true := by
      simpa [List.all_eq_true] using hgrest
    cases ln with
    | blank k =>
      have hinit : ignoreInitial (srcChars (.blank k :: rest))
          = srcChars (.blank 0 :: rest) := by
        rw [show srcChars (.blank k :: rest) = spacesN k ++ ('\n' :: srcChars rest) from by
          simp [srcChars, lineChars]]
        rw [ignoreInitial_spaces, ignoreInitial_stop _ _ (by decide) (by decide)]
        simp [srcChars, lineChars, spacesN]
      rw [hinit]
      refine lexesFrom_lines (.blank 0 :: rest) 0 ?_
      intro x hx
      rcases List.mem_cons.mp hx with rfl | hx
      · rfl
      · exact hgrest' x hx
    | comment k txt =>
      have hnl : '\n' ∉ txt := by
        have hc := hg
        simp only [List.all_cons, Bool.and_eq_true, goodLineB] at hc
        exact of_decide_eq_true hc.1
      have hinit : ignoreInitial (srcChars (.comment k txt :: rest))
          = ignoreInitial (srcChars rest) := by
        rw [show srcChars (.comment k txt :: rest)
            = spacesN k ++ ('#' :: (txt ++ '\n' :: srcChars rest)) from by
          simp [srcChars, lineChars]]
        rw [ignoreInitial_spaces, ignoreInitial, if_neg (by decide), if_pos rfl,
          dropLine_append txt _ hnl]
      rw [show expToks 0 (.comment k txt :: rest) = expToks 0 rest from rfl, hinit]
      exact ih hgrest (by simpa [firstStmt0B] using h0)
    | stmt l nm =>
      have hl0 : l = 0 := by
        simpa [firstStmt0B] using h0
      subst hl0
      have hgood : goodLineB (.stmt 0 nm) = true := by
        simp only [List.all_cons, Bool.and_eq_true] at hg
        exact hg.1
      simp only [goodLineB] at hgood
      obtain ⟨h0nm, hall, _⟩ := of_decide_eq_true hgood
      have hinit : ignoreInitial (srcChars (.stmt 0 nm :: rest))
          = srcChars (.stmt 0 nm :: rest) := by
        cases nm with
        | nil => exact absurd rfl h0nm
        | cons c nm' =>
          have hc := lowerAlpha_props c (hall c (by simp))
          rw [show srcChars (.stmt 0 (c :: nm') :: rest)
              = c :: (nm' ++ '\n' :: srcChars rest) from by
            simp [srcChars, lineChars, spacesN]]
          rw [ignoreInitial_stop _ _ hc.2.2.2.2.2.1 hc.2.2.2.2.2.2.2.1]
      rw [hinit]
      refine lexesFrom_lines (.stmt 0 nm :: rest) 0 ?_
      intro x hx
      rcases List.mem_cons.mp hx with rfl | hx
      · simp only [goodLineB]
        exact hgood
      · exact hgrest' x hx


/-! ## C2 witness, C8 and C9 -/

/-- A demonstration program: `a`, a blank line, a comment line, then `b`
one level deeper, then `c` back at level 0. -/
def c2Demo : List SrcLine :=
  [.stmt 0 ['a'], .blank 3, .comment 1 ['h', 'i'], .stmt 1 ['b'], .stmt 0 ['c']]

/-- Witness for C2 at the demonstration program: one `Indent` into `b`,
one `Dedent` back to `c`, blank and comment lines invisible. -/
theorem c2_witness :
    Lexes (srcChars c2Demo)
      [Tok.id ['a'], Tok.newline, Tok.indent, Tok.id ['b'], Tok.newline,
       Tok.dedent, Tok.id ['c'], Tok.newline, Tok.eof] := by
  have h := c2_layout_token_stream c2Demo (by decide) (by decide)
  simpa [c2Demo, expToks, layoutToks] using h

theorem ignoreEmptyFrom_skip_junk (junk : List SrcLine) (X : List Char)
    (hjunk : ∀ j ∈ junk, goodLineB j = true ∧ ∀ l nm, j ≠ .stmt l nm) :
    ignoreEmptyFrom 0 (srcChars junk ++ X) = ignoreEmptyFrom 0 X := by
  induction junk with
  | nil => rfl
  | cons j rest ih =>
    rw [show srcChars (j :: rest) ++ X = lineChars j ++ (srcChars rest ++ X) from by
      simp [srcChars, List.append_assoc]]
    rw [ignoreEmptyFrom_junk_line 0 j _ (hjunk j (by simp)).1 (hjunk j (by simp)).2]
    exact ih (fun j hj => hjunk j (by simp [hj]))

/-- C8: when layout resolution reaches a non-blank, non-comment line whose
count of leading spaces is odd, the lexer raises "invalid indent" and the
run produces no tokens at all; when the count is even (`2*m`), the line's
indent level becomes `m` (the count divided by two). -/
theorem c8_odd_indent_error
    (junk : List SrcLine)
    (hjunk : ∀ j ∈ junk, goodLineB j = true ∧ ∀ l nm, j ≠ SrcLine.stmt l nm)
    (k : Nat) (hk : k % 2 = 1) (c : Char) (tail : List Char)
    (hc1 : c ≠ ' ') (hc2 : c ≠ '\n') (hc3 : c ≠ '#') :
    (ignoreEmpty (srcChars junk ++ (spacesN k ++ c :: tail)) = .error ⟨"invalid indent"⟩)
    ∧ (∀ (prev : Nat) (d : Int) (f : Nat),
        lexAll (f + 2) ⟨srcChars junk ++ (spacesN k ++ c :: tail), Tok.newline, prev, d⟩
          = .error ⟨"invalid indent"⟩)
    ∧ (∀ (m : Nat) (c2 : Char) (tail2 : List Char) (prev : Nat) (d : Int),
        c2 ≠ ' ' → c2 ≠ '\n' → c2 ≠ '#' →
        layoutResolve ⟨srcChars junk ++ (spacesN (2 * m) ++ c2 :: tail2), Tok.newline, prev, d⟩
          = .ok ⟨c2 :: tail2, Tok.newline, m, (m : Int) - (prev : Int)⟩) := by
  have herr : ignoreEmpty (srcChars junk ++ (spacesN k ++ c :: tail))
      = .error ⟨"invalid indent"⟩ := by
    rw [ignoreEmpty, ignoreEmptyFrom_skip_junk junk _ hjunk, ignoreEmptyFrom_spaces,
      ignoreEmptyFrom_stop _ _ _ hc1 hc2 hc3, if_pos (by omega)]
  refine ⟨herr, fun prev d f => ?_, fun m c2 tail2 prev d hcc1 hcc2 hcc3 => ?_⟩
  · have hle : layoutResolve
        ⟨srcChars junk ++ (spacesN k ++ c :: tail), Tok.newline, prev, d⟩
        = .error ⟨"invalid indent"⟩ := by
      simp only [layoutResolve]
      rw [herr]
    have hnt : nextTok 1 ⟨srcChars junk ++ (spacesN k ++ c :: tail), Tok.newline, prev, d⟩
        = .error ⟨"invalid indent"⟩ := by
      show nextTok (0 + 1) _ = _
      rw [nextTok, if_neg (by simp), if_pos rfl, hle]
    rw [lexAll, nextTok_succ f 0 _, hnt]
  · simp only [layoutResolve]
    rw [ignoreEmpty, ignoreEmptyFrom_skip_junk junk _ hjunk, ignoreEmptyFrom_spaces,
      ignoreEmptyFrom_stop _ _ _ hcc1 hcc2 hcc3, if_neg (by omega)]
    dsimp only
    rw [show (0 + 2 * m) / 2 = m from by omega]

/-- Witness for C8: a line indented by three spaces aborts the whole run
with "invalid indent". -/
theorem c8_witness :
    lexAll 2 ⟨srcChars [] ++ (spacesN 3 ++ 'y' :: []), Tok.newline, 0, 0⟩
      = .error ⟨"invalid indent"⟩ :=
  (c8_odd_indent_error [] (by simp) 3 (by decide) 'y' [] (by decide) (by decide)
    (by decide)).2.1 0 0 0

/-- C9: during normal tokenisation (current token neither `Newline` nor
`Eof`, no pending indent delta), a `<` or `>` not followed by `=` lexes to
the single-character token `Char('<')` / `Char('>')`.  The set
`special_symbols` lives in the missing header and is modelled from the
spec (`specialSyms`). -/
theorem c9_single_angle_tokens
    (st : LexState) (rest : List Char)
    (hcur1 : st.cur ≠ Tok.eof) (hcur2 : st.cur ≠ Tok.newline) (hd : st.diff = 0)
    (hpeek : rest.head? ≠ some '=') :
    (st.inp = '<' :: rest → ∀ n, nextTok (n + 1) st
        = .ok (.char '<', { st with inp := rest, cur := .char '<' }))
    ∧ (st.inp = '>' :: rest → ∀ n, nextTok (n + 1) st
        = .ok (.char '>', { st with inp := rest, cur := .char '>' })) := by
  constructor
  · intro hinp n
    rw [nextTok_succ n 0 st, nextTok, if_neg hcur1, if_neg hcur2]
    dsimp only
    rw [if_neg (by omega), if_neg (by omega), hinp,
      dropSpaces_cons_of_ne _ _ (by decide)]
    dsimp only
    rw [if_neg (by decide : ¬isDigitC '<' = true)]
    rw [if_neg (by decide : ¬('<' = '\'' ∨ '<' = '\"'))]
    rw [if_neg (by decide : ¬('<' = '\n')), if_neg (by decide : ¬('<' = '#'))]
    rw [if_neg (show ¬('<' = '=' ∧ rest.head? ≠ some '=') from fun h => by cases h.1)]
    rw [if_neg (show ¬(comparisonSyms.contains '<' = true ∧ rest.head? = some '=') from
      fun h => hpeek h.2)]
    rw [if_pos (by decide : isSpecial '<' = true)]
  · intro hinp n
    rw [nextTok_succ n 0 st, nextTok, if_neg hcur1, if_neg hcur2]
    dsimp only
    rw [if_neg (by omega), if_neg (by omega), hinp,
      dropSpaces_cons_of_ne _ _ (by decide)]
    dsimp only
    rw [if_neg (by decide : ¬isDigitC '>' = true)]
    rw [if_neg (by decide : ¬('>' = '\'' ∨ '>' = '\"'))]
    rw [if_neg (by decide : ¬('>' = '\n')), if_neg (by decide : ¬('>' = '#'))]
    rw [if_neg (show ¬('>' = '=' ∧ rest.head? ≠ some '=') from fun h => by cases h.1)]
    rw [if_neg (show ¬(comparisonSyms.contains '>' = true ∧ rest.head? = some '=') from
      fun h => hpeek h.2)]
    rw [if_pos (by decide : isSpecial '>' = true)]

/-- Witness for C9: `<` before a digit lexes to `Char('<')`. -/
theorem c9_witness :
    nextTok 1 ⟨'<' :: ['3'], Tok.id ['x'], 0, 0⟩
      = .ok (.char '<', ⟨['3'], Tok.char '<', 0, 0⟩) :=
  (c9_single_angle_tokens ⟨'<' :: ['3'], Tok.id ['x'], 0, 0⟩ ['3']
    (by decide) (by decide) rfl (by decide)).1 rfl 0

end Mython
